import Mathlib

set_option autoImplicit false
set_option linter.unusedVariables false
set_option allowUnsafeReducibility true

attribute [semireducible] Rat.add Rat.mul Rat.sub Rat.div Rat.neg Rat.inv Rat.normalize Rat.maybeNormalize Rat.ofScientific

namespace HGV

/-! Shallow embedding of the LST route engine (`lst.js`, the unnamed source
module of HGV-Destinations-Pro): label classification, geocoding with a
versioned cache, OSRM route caching, endpoint resolution and the per-route
path build of `drawRoutesOnMap`.  JavaScript numbers are modelled as `ℚ`,
with `Option ℚ` where a value can be missing or non-finite (`NaN`/`±∞`);
network calls are modelled as oracle functions supplied as parameters, and
the trigonometric great-circle distance is abstracted as a distance-function
parameter.  The regular expressions of the source are transcribed as
executable character-list matchers with JavaScript `\b`/`\s`/`\w`/`\d`
semantics (ASCII). -/

/-- Characters matched by `\d` in the source's regexes (ASCII digits). -/
def isDigitCh (c : Char) : Bool := ('0' ≤ c) && (c ≤ '9')

/-- ASCII letters, as matched by the case-insensitive `[A-Z]` classes. -/
def isLetterCh (c : Char) : Bool := (('A' ≤ c) && (c ≤ 'Z')) || (('a' ≤ c) && (c ≤ 'z'))

/-- JavaScript word characters (`\w` = `[A-Za-z0-9_]`), the class used by the
`\b` word-boundary assertion. -/
def isWordCh (c : Char) : Bool := isLetterCh c || isDigitCh c || (c = '_')

/-- Whitespace for `\s` and `String.prototype.trim` (common ASCII whitespace). -/
def isWsCh (c : Char) : Bool := (c = ' ') || (c = '\t') || (c = '\n') || (c = '\r')

/-- Case-insensitive `[AM]` character class. -/
def isAMCh (c : Char) : Bool := (c = 'A') || (c = 'a') || (c = 'M') || (c = 'm')

/-- Word boundary `\b` immediately before a word character: holds at the string
start or after a non-word character.  `none` means the scan position is the
start of the string. -/
def boundaryBeforeOk : Option Char → Bool
  | none => true
  | some p => !isWordCh p

/-- Word boundary `\b` immediately after a word character: holds at the string
end or before a non-word character. -/
def boundaryAfterOk : List Char → Bool
  | [] => true
  | c :: _ => !isWordCh c

/-- Greedy `\s*`. -/
def skipWs (l : List Char) : List Char := l.dropWhile isWsCh

/-- Transcription of `String.prototype.trim`. -/
def trimCh (l : List Char) : List Char :=
  ((l.dropWhile isWsCh).reverse.dropWhile isWsCh).reverse

/-- Trim at the `String` level (`String(x).trim()`). -/
def trimS (s : String) : String := String.mk (trimCh s.data)

/-- Transcription of `String.prototype.toLowerCase` (ASCII). -/
def lowerS (s : String) : String := String.mk (s.data.map Char.toLower)

/-- JavaScript `a || b` on strings: the empty string is falsy. -/
def jsOr (a b : String) : String := if a = "" then b else a

/-- Case-insensitive literal match of `w` at the head of `l`. -/
def startsWithCI : List Char → List Char → Bool
  | [], _ => true
  | _ :: _, [] => false
  | w :: ws, c :: cs => (Char.toLower w = Char.toLower c) && startsWithCI ws cs

/-- Case-insensitive literal `w` at the head of `l`, followed by a `\b`. -/
def wordAtOk (w : List Char) (l : List Char) : Bool :=
  startsWithCI w l && boundaryAfterOk (l.drop w.length)

/-- Scan for `\b(w1|w2|…)\b` (case-insensitive) anywhere in the string; `prev`
is the character before the current scan position. -/
def containsWordCIGo (ws : List (List Char)) : Option Char → List Char → Bool
  | _, [] => false
  | prev, c :: rest =>
      (boundaryBeforeOk prev && ws.any (fun w => wordAtOk w (c :: rest)))
      || containsWordCIGo ws (some c) rest

/-- Test of `/\b(w1|w2|…)\b/i` on a character list. -/
def containsWordCI (ws : List (List Char)) (l : List Char) : Bool :=
  containsWordCIGo ws none l

/-- Anchored test of `/^(w1|w2|…)\b/i`. -/
def startsWithWordCI (ws : List (List Char)) (l : List Char) : Bool :=
  ws.any (fun w => wordAtOk w l)

/-- Tail `\s*\d[A-Z]{2}\b` of the UK-postcode pattern. -/
def pcTail (l : List Char) : Bool :=
  match skipWs l with
  | d :: c1 :: c2 :: r => isDigitCh d && isLetterCh c1 && isLetterCh c2 && boundaryAfterOk r
  | _ => false

/-- Part `[A-Z]?\s*\d[A-Z]{2}\b` of the postcode pattern (after the leading
digits); the optional letter contributes a disjunction. -/
def pcAfterDigits (l : List Char) : Bool :=
  pcTail l ||
    (match l with
     | c :: r => isLetterCh c && pcTail r
     | [] => false)

/-- Part `\d{1,2}[A-Z]?\s*\d[A-Z]{2}\b` of the postcode pattern (after the
leading letters). -/
def pcAfterLetters (l : List Char) : Bool :=
  match l with
  | d1 :: r1 =>
      isDigitCh d1 &&
        (pcAfterDigits r1 ||
          (match r1 with
           | d2 :: r2 => isDigitCh d2 && pcAfterDigits r2
           | [] => false))
  | [] => false

/-- Attempt of `[A-Z]{1,2}\d{1,2}[A-Z]?\s*\d[A-Z]{2}\b` at one position. -/
def pcAt (l : List Char) : Bool :=
  match l with
  | c1 :: r1 =>
      isLetterCh c1 &&
        (pcAfterLetters r1 ||
          (match r1 with
           | c2 :: r2 => isLetterCh c2 && pcAfterLetters r2
           | [] => false))
  | [] => false

/-- Scan of the postcode pattern over the string (the leading `\b` requires a
non-word character, or the string start, before the match). -/
def hasPostcodeGo : Option Char → List Char → Bool
  | _, [] => false
  | prev, c :: rest => (boundaryBeforeOk prev && pcAt (c :: rest)) || hasPostcodeGo (some c) rest

/-- Test of `/\b[A-Z]{1,2}\d{1,2}[A-Z]?\s*\d[A-Z]{2}\b/i`, the source's
"contains a postcode" check. -/
def hasPostcode (s : String) : Bool := hasPostcodeGo none s.data

/-- Alternation of `/^(at|take|then|turn|continue|bear|keep|follow|exit|slip)\b/i`. -/
def instrStartWords : List (List Char) :=
  [("at").data, ("take").data, ("then").data, ("turn").data, ("continue").data,
   ("bear").data, ("keep").data, ("follow").data, ("exit").data, ("slip").data]

/-- Alternation of `/\b(roundabout|flyover|1st|2nd|3rd|4th|5th)\b/i`. -/
def ordWords : List (List Char) :=
  [("roundabout").data, ("flyover").data, ("1st").data, ("2nd").data,
   ("3rd").data, ("4th").data, ("5th").data]

/-- Alternation of `/\b(exit|take|onto|into)\b/i`. -/
def actionWords : List (List Char) :=
  [("exit").data, ("take").data, ("onto").data, ("into").data]

/-- Transcription of `isInstructionLikeLabel` from the source. -/
def isInstructionLikeLabel (v : String) : Bool :=
  let s := trimCh v.data
  if s.isEmpty then true
  else if hasPostcodeGo none s then false
  else if startsWithWordCI instrStartWords s then true
  else if containsWordCI ordWords s && containsWordCI actionWords s then true
  else false

/-- Optional group `(?:\s*\/\s*([AM]?\d{1,3}))?` of the road-token regex,
together with the regex's trailing `\b`: attempted after the first digit run,
it succeeds only when the slash part and the final boundary both match, and
then yields the characters captured by the second group.  (Backtracking of
`\d{1,3}` and `[AM]?` never helps here: shortening a digit run leaves a digit,
a word character, where a boundary or a `/` is required.) -/
def roadSlashGroup (l : List Char) : Option (List Char) :=
  match skipWs l with
  | c0 :: l2 =>
      if c0 = '/' then
        match skipWs l2 with
        | c :: l4 =>
            if isAMCh c then
              let ds := List.takeWhile isDigitCh l4
              let rest := List.dropWhile isDigitCh l4
              if decide (1 ≤ ds.length) && decide (ds.length ≤ 3) && boundaryAfterOk rest then
                some (c :: ds)
              else none
            else
              let ds := List.takeWhile isDigitCh (c :: l4)
              let rest := List.dropWhile isDigitCh (c :: l4)
              if decide (1 ≤ ds.length) && decide (ds.length ≤ 3) && boundaryAfterOk rest then
                some ds
              else none
        | [] => none
      else none
  | [] => none

/-- Attempt of `\b([AM]\d{1,3})(?:\s*\/\s*([AM]?\d{1,3}))?\b` at one position
(the leading boundary is checked by the caller); returns the two capture
groups.  The optional group is preferred (greedy `?`); if it fails, the
trailing `\b` is required right after the first digit run. -/
def roadMatchAt (l : List Char) : Option (List Char × Option (List Char)) :=
  match l with
  | c :: l1 =>
      if isAMCh c then
        let ds := List.takeWhile isDigitCh l1
        let rest := List.dropWhile isDigitCh l1
        if decide (1 ≤ ds.length) && decide (ds.length ≤ 3) then
          match roadSlashGroup rest with
          | some g2 => some (c :: ds, some g2)
          | none => if boundaryAfterOk rest then some (c :: ds, none) else none
        else none
      else none
  | [] => none

/-- Leftmost-match scan of the road-token regex over the string. -/
def roadScan : Option Char → List Char → Option (List Char × Option (List Char))
  | _, [] => none
  | prev, c :: rest =>
      match (if boundaryBeforeOk prev then roadMatchAt (c :: rest) else none) with
      | some r => some r
      | none => roadScan (some c) rest

/-- Transcription of `extractRoadToken` from the source: the first match's
groups, uppercased and joined with `/` when the second group captured. -/
def extractRoadToken (v : String) : String :=
  match roadScan none v.data with
  | none => ""
  | some (g1, none) => String.mk (g1.map Char.toUpper)
  | some (g1, some g2) => String.mk (g1.map Char.toUpper ++ '/' :: g2.map Char.toUpper)

/-- Tail `\s*\/\s*[AM]?\d{1,3}$` of the road-only pattern. -/
def roadOnlyTail (l : List Char) : Bool :=
  match skipWs l with
  | c0 :: l2 =>
      if c0 = '/' then
        match skipWs l2 with
        | c :: l4 =>
            if isAMCh c then
              let ds := List.takeWhile isDigitCh l4
              let rest := List.dropWhile isDigitCh l4
              decide (1 ≤ ds.length) && decide (ds.length ≤ 3) && rest.isEmpty
            else
              let ds := List.takeWhile isDigitCh (c :: l4)
              let rest := List.dropWhile isDigitCh (c :: l4)
              decide (1 ≤ ds.length) && decide (ds.length ≤ 3) && rest.isEmpty
        | [] => false
      else false
  | [] => false

/-- Anchored body of the `isRoadOnlyLabel` pattern, on the trimmed
characters. -/
def roadOnlyCore : List Char → Bool
  | [] => false
  | c :: l1 =>
      isAMCh c &&
        (let ds := List.takeWhile isDigitCh l1
         let rest := List.dropWhile isDigitCh l1
         decide (1 ≤ ds.length) && decide (ds.length ≤ 3) && (rest.isEmpty || roadOnlyTail rest))

/-- Transcription of `isRoadOnlyLabel`: the entire trimmed label must match
`^[AM]\d{1,3}(?:\s*\/\s*[AM]?\d{1,3})?$` (case-insensitive); the empty
string is rejected. -/
def isRoadOnlyLabel (v : String) : Bool := roadOnlyCore (trimCh v.data)

/-- Anchored test of `^<cls>\d+\b` (used for `/^[AM]\d+\b/i` and `/^M\d+\b/i`
in the loop-local `looksLikeRoadOnly`). -/
def roadStartTest (cls : Char → Bool) (l : List Char) : Bool :=
  match l with
  | c :: r =>
      cls c &&
        (let ds := List.takeWhile isDigitCh r
         decide (1 ≤ ds.length) && boundaryAfterOk (List.dropWhile isDigitCh r))
  | [] => false

/-- Continuation `\/?A?\d*\b` of `/^A\d+\/?A?\d*\b/i` after the digit run: an
end of string or a non-word character satisfies the boundary with all
optionals empty; an `A`/`a` may be consumed, requiring a boundary after the
digit run that follows it; any other word character fails. -/
def aSlashTail (l : List Char) : Bool :=
  match l with
  | [] => true
  | c :: r =>
      if !isWordCh c then true
      else if (c = 'A') || (c = 'a') then boundaryAfterOk (List.dropWhile isDigitCh r)
      else false

/-- Anchored test of `/^A\d+\/?A?\d*\b/i`. -/
def testASlash (l : List Char) : Bool :=
  match l with
  | c :: r =>
      ((c = 'A') || (c = 'a')) &&
        (let ds := List.takeWhile isDigitCh r
         decide (1 ≤ ds.length) && aSlashTail (List.dropWhile isDigitCh r))
  | [] => false

/-- Transcription of the loop-local `looksLikeRoadOnly` helper of
`drawRoutesOnMap` (empty trimmed labels count as road-only there). -/
def looksLikeRoadOnly (v : String) : Bool :=
  match trimCh v.data with
  | [] => true
  | c :: r =>
      roadStartTest isAMCh (c :: r) || testASlash (c :: r)
        || roadStartTest (fun d => (d = 'M') || (d = 'm')) (c :: r)
        || containsWordCI [("Jn").data] (c :: r)

theorem length_dropWhile_le (p : Char → Bool) (l : List Char) :
    (l.dropWhile p).length ≤ l.length := by
  induction l with
  | nil => simp [List.dropWhile]
  | cons c rest ih =>
      by_cases h : p c = true
      · simp only [List.dropWhile, h]
        exact Nat.le_trans ih (Nat.le_succ _)
      · simp [List.dropWhile, h]

/-- Global case-insensitive replacement of `\bW\b` (`.replace(/\bW\b/gi, rep)`):
the scan resumes right after each match, with the boundary context taken
from the original text.  The `skip` counter consumes the matched region
(structurally) after its replacement has been emitted; the scan starts with
`skip = 0` and `prev = none`. -/
def replaceWordCIGo (w rep : List Char) : ℕ → Option Char → List Char → List Char
  | _ + 1, _, [] => []
  | skip + 1, _, c :: rest => replaceWordCIGo w rep skip (some c) rest
  | 0, _, [] => []
  | 0, prev, c :: rest =>
      if w ≠ [] ∧ (boundaryBeforeOk prev && wordAtOk w (c :: rest)) = true then
        rep ++ replaceWordCIGo w rep (w.length - 1) (some c) rest
      else
        c :: replaceWordCIGo w rep 0 (some c) rest

/-- Transcription of `.replace(/\\s{2,}/g, " ")`: a run of two or more
whitespace characters collapses to a single space, a lone whitespace
character is kept as-is.  The Boolean flag is true while consuming the rest
of an already-collapsed run; the scan starts with `false`. -/
def collapseWs : Bool → List Char → List Char
  | _, [] => []
  | true, c :: rest =>
      if isWsCh c then collapseWs true rest else c :: collapseWs false rest
  | false, c :: rest =>
      if isWsCh c then
        match rest with
        | d :: _ =>
            if isWsCh d then ' ' :: collapseWs true rest else c :: collapseWs false rest
        | [] => [c]
      else c :: collapseWs false rest

/-- Transcription of `normalizeQ` inside `geocodePlace`: trim, strip slashes,
remove the word `near`, expand `Jn`/`Jnc`/`Rdbt`/`R/A`, collapse repeated
whitespace. -/
def normalizeQ (q : String) : String :=
  let s := trimCh q.data
  if s.isEmpty then String.mk s
  else
    let s1 := s.map (fun c => if c = '/' then ' ' else c)
    let s2 := replaceWordCIGo ("near").data (" ").data 0 none s1
    let s3 := replaceWordCIGo ("Jn").data ("Junction").data 0 none s2
    let s4 := replaceWordCIGo ("Jnc").data ("Junction").data 0 none s3
    let s5 := replaceWordCIGo ("Rdbt").data ("Roundabout").data 0 none s4
    let s6 := replaceWordCIGo ("R/A").data ("Roundabout").data 0 none s5
    String.mk (collapseWs false s6)

/-- A finite coordinate pair. -/
structure Coord where
  lat : ℚ
  lng : ℚ
deriving DecidableEq, Repr

/-- A JSON coordinate object whose components may be missing or non-finite
(`Number(x)` failing `Number.isFinite`), modelled as `none`. -/
structure RawCoords where
  lat : Option ℚ
  lng : Option ℚ
deriving DecidableEq, Repr

/-- Transcription of `UK_BOUNDS` / `inUkBounds(lat, lng)` — the geographic
envelope. -/
def inUkBounds (lat lng : ℚ) : Bool :=
  decide (49.8 ≤ lat) && decide (lat ≤ 60.95) && decide (-8.65 ≤ lng) && decide (lng ≤ 1.8)

/-- Envelope check where a component may be non-finite (`Number.isFinite`
rejects `none`). -/
def inUkBoundsOpt : Option ℚ → Option ℚ → Bool
  | some lat, some lng => inUkBounds lat lng
  | _, _ => false

/-- Check `c && inUkBounds(c.lat, c.lng)` on an optional coordinate object. -/
def inUkBoundsRaw : Option RawCoords → Bool
  | some c => inUkBoundsOpt c.lat c.lng
  | none => false

/-- Values `{lat: Number(c.lat), lng: Number(c.lng)}` of a raw coordinate
object (meaningful once `inUkBoundsRaw` has passed). -/
def rawCoord : Option RawCoords → Coord
  | some c => ⟨c.lat.getD 0, c.lng.getD 0⟩
  | none => ⟨0, 0⟩

/-- One GeoJSON feature of a Photon response: `geometry.coordinates[0]`/`[1]`
after `Number(...)` (a `none` is a missing or non-finite entry) and the
`properties.name`/`properties.label` strings (empty when absent). -/
structure Feature where
  lng : Option ℚ
  lat : Option ℚ
  name : String
  plabel : String
deriving DecidableEq, Repr

/-- A geocode-cache entry `{lat, lng, displayName}`; components may be junk
left by older cache versions. -/
structure GeoEntry where
  lat : Option ℚ
  lng : Option ℚ
  displayName : String
deriving DecidableEq, Repr

/-- The persisted geocode cache: the `__v` version tag (`none` when absent)
and the entries in insertion order. -/
structure GeoCache where
  ver : Option ℤ
  entries : List (String × GeoEntry)
deriving DecidableEq, Repr

/-- Transcription of `GEOCODE_CACHE_VERSION`. -/
def geocodeCacheVersion : ℤ := 2

/-- Property lookup in the cache object. -/
def geoLookup (c : GeoCache) (k : String) : Option GeoEntry :=
  (c.entries.find? (fun p => p.1 == k)).map Prod.snd

/-- Property deletion (`delete cache[k]`). -/
def geoErase (c : GeoCache) (k : String) : GeoCache :=
  ⟨c.ver, c.entries.filter (fun p => !(p.1 == k))⟩

/-- Property assignment (`cache[k] = v`): an existing key keeps its position,
a new key is appended. -/
def geoSetEntries (l : List (String × GeoEntry)) (k : String) (v : GeoEntry) :
    List (String × GeoEntry) :=
  match l with
  | [] => [(k, v)]
  | p :: rest => if p.1 == k then (k, v) :: rest else p :: geoSetEntries rest k v

/-- Property assignment at the cache level. -/
def geoSet (c : GeoCache) (k : String) (v : GeoEntry) : GeoCache :=
  ⟨c.ver, geoSetEntries c.entries k v⟩

/-- The empty object `{}` that `readJSON` yields when nothing is stored. -/
def emptyGeoCache : GeoCache := ⟨none, []⟩

/-- The coordinate object returned by a successful `geocodePlace`. -/
structure GeoHit where
  lat : ℚ
  lng : ℚ
  displayName : String
deriving DecidableEq, Repr

/-- One element of a cached/fetched OSRM coordinate array: `none` models an
element that is not an array of length ≥ 2; the inner options model
non-finite `c[0]`/`c[1]` values (stored as `[lng, lat]`). -/
abbrev CPt := Option (Option ℚ × Option ℚ)

/-- Oracles and abstracted numerics: `distM` stands for the trigonometric
`haversineMetersSimple` (great-circle metres) and `distKm` for the
loop-local `haversineKm`; `geoFetch` maps a normalized Photon query to the
parsed feature list (`none` models a failed request, a non-OK status,
unparsable JSON or a missing `features` array), and `osrmFetch` maps an
endpoint pair to the parsed OSRM `geometry.coordinates` (`none` models a
failed request or a non-array payload). -/
structure Env where
  distM : Coord → Coord → ℚ
  distKm : Coord → Coord → ℚ
  geoFetch : String → Option (List Feature)
  osrmFetch : Coord → Coord → Option (List CPt)

/-- Coordinate `{lat: Number(c?.[1]), lng: Number(c?.[0])}` of a feature
(meaningful for candidates that passed the envelope filter). -/
def featCoord (f : Feature) : Coord := ⟨f.lat.getD 0, f.lng.getD 0⟩

/-- Transcription of `MAX_HINT_DISTANCE_M` (120 km). -/
def maxHintDistanceM : ℚ := 120000

/-- Envelope-surviving candidates of one Photon query: the response's
features filtered by the envelope (empty when the request failed). -/
def survivors (env : Env) (q : String) : List Feature :=
  match env.geoFetch (normalizeQ q) with
  | none => []
  | some feats => feats.filter (fun f => inUkBoundsOpt f.lat f.lng)

/-- Strict-improvement scan for the candidate nearest to the hint, mirroring
the `for` loop of `tryFetch` (`d < bestD` keeps the earliest of ties; the
JavaScript loop starts from `bestD = Infinity`, which is equivalent to
starting from the first candidate's distance and rescanning the list). -/
def pickLoop (env : Env) (h : Coord) : Feature → ℚ → List Feature → Feature × ℚ
  | best, bestD, [] => (best, bestD)
  | best, bestD, f :: rest =>
      if env.distM h (featCoord f) < bestD then
        pickLoop env h f (env.distM h (featCoord f)) rest
      else pickLoop env h best bestD rest

/-- Transcription of `tryFetch(q)` inside `geocodePlace` (one `fetch`):
`none` models a failed request, an empty feature list, no envelope-surviving
candidate, or a nearest candidate farther than 120 km from the hint. -/
def tryFetch (env : Env) (q : String) (hint : Option Coord) : Option Feature :=
  match env.geoFetch (normalizeQ q) with
  | none => none
  | some feats =>
      if feats.isEmpty then none
      else
        match feats.filter (fun f => inUkBoundsOpt f.lat f.lng) with
        | [] => none
        | c0 :: rest =>
            match hint with
            | some h =>
                let p := pickLoop env h c0 (env.distM h (featCoord c0)) (c0 :: rest)
                if maxHintDistanceM < p.2 then none else some p.1
            | none => some c0

/-- Display name of a hit:
`hit?.properties?.name || hit?.properties?.label || label`. -/
def displayNameOf (f : Feature) (label : String) : String :=
  jsOr f.name (jsOr f.plabel label)

/-- Network part of `geocodePlace` after a cache miss: the two query
attempts, the hard envelope double-check, and the cache write.  `fresh` is
the in-memory version-valid cache, `stored` the currently persisted cache
(they differ until the first write).  The third component counts `fetch`
calls. -/
def geoNet (env : Env) (fresh stored : GeoCache) (label k : String) (hint : Option Coord) :
    Except String GeoHit × GeoCache × ℕ :=
  let h1 := tryFetch env (label ++ (", UK")) hint
  let hit := match h1 with
    | some f => some f
    | none => tryFetch env label hint
  let calls : ℕ := match h1 with
    | some _ => 1
    | none => 2
  match hit with
  | none => (Except.error (("No match for: ") ++ label), stored, calls)
  | some f =>
      if inUkBoundsOpt f.lat f.lng then
        let out : GeoEntry := ⟨f.lat, f.lng, displayNameOf f label⟩
        (Except.ok ⟨f.lat.getD 0, f.lng.getD 0, out.displayName⟩, geoSet fresh k out, calls)
      else
        (Except.error (("Geocode out of UK bounds for: ") ++ label), stored, calls)

/-- Cache key of a label: `String(label || "").trim().toLowerCase()`. -/
def normKey (label : String) : String := lowerS (trimS label)

/-- The version-checked in-memory cache (`freshCache`): the stored cache
when its `__v` matches, else a fresh `{__v: 2}` object. -/
def freshOf (g : GeoCache) : GeoCache :=
  if g.ver = some geocodeCacheVersion then g else ⟨some geocodeCacheVersion, []⟩

/-- The persisted cache right after the version check (`removeItem` cleared
it on a mismatch, so a later read yields the empty object). -/
def storedOf (g : GeoCache) : GeoCache :=
  if g.ver = some geocodeCacheVersion then g else emptyGeoCache

/-- Transcription of `geocodePlace(label, hint)`: version check (resetting a
stale cache), cached-entry validation with purge of invalid entries, the
two-query network fallback, the hard envelope check and the cache write.
Returns the result, the persisted cache afterwards, and the number of
`fetch` calls made. -/
def geocodePlace (env : Env) (g : GeoCache) (label : String) (hint : Option Coord) :
    Except String GeoHit × GeoCache × ℕ :=
  let k := normKey label
  if k = "" then (Except.error ("Missing geocode label"), storedOf g, 0)
  else
    match geoLookup (freshOf g) k with
    | some c =>
        if inUkBoundsOpt c.lat c.lng then
          (Except.ok ⟨c.lat.getD 0, c.lng.getD 0, c.displayName⟩, storedOf g, 0)
        else
          geoNet env (geoErase (freshOf g) k) (geoErase (freshOf g) k) label k hint
    | none => geoNet env (freshOf g) (storedOf g) label k hint

/-- Endpoint key `"from"` / `"to"` of `resolveEndpoint` and
`effectiveLabelForEndpoint`. -/
inductive EndKey where
  | fromK
  | toK
deriving DecidableEq, Repr

/-- A route-sheet segment (JSON): absent strings are `""`, absent objects
are `none`; `geometry` is an operator-drawn `[[lng, lat], …]` polyline (its
entries are numeric JSON pairs). -/
structure Segment where
  road : String
  fromL : String
  toL : String
  risk : String
  comment : String
  fromCoords : Option RawCoords
  toCoords : Option RawCoords
  geometry : Option (List (ℚ × ℚ))
deriving DecidableEq, Repr

/-- Field access `seg?.[key]` (the textual label). -/
def Segment.label : Segment → EndKey → String
  | s, .fromK => s.fromL
  | s, .toK => s.toL

/-- Field access `seg?.[`${key}Coords`]`. -/
def Segment.keyCoords : Segment → EndKey → Option RawCoords
  | s, .fromK => s.fromCoords
  | s, .toK => s.toCoords

/-- Transcription of `resolveOverride(coords)`. -/
def resolveOverride (c : Option RawCoords) : Option GeoHit :=
  match c with
  | some rc =>
      match rc.lat, rc.lng with
      | some la, some ln => if inUkBounds la ln then some ⟨la, ln, ("Override")⟩ else none
      | _, _ => none
  | none => none

/-- Result of `resolveEndpoint`: either a `{lat, lng, displayName}` object,
or the caller's hint returned as-is (which carries no `displayName`). -/
structure Resolved where
  lat : ℚ
  lng : ℚ
  displayName : Option String
deriving DecidableEq, Repr

/-- Transcription of `resolveEndpoint(seg, key, hint, labelOverride)`:
coordinate override first, then the label (`labelOverride ?? seg[key]`), an
empty label falling back to the hint, otherwise a geocode of the label with
the hint.  Returns the result, the persisted geocode cache afterwards, and
the number of `fetch` calls made. -/
def resolveEndpoint (env : Env) (g : GeoCache) (seg : Segment) (key : EndKey)
    (hint : Option Coord) (labelOverride : Option String) :
    Except String Resolved × GeoCache × ℕ :=
  match resolveOverride (seg.keyCoords key) with
  | some c => (Except.ok ⟨c.lat, c.lng, some c.displayName⟩, g, 0)
  | none =>
      let raw := trimS (labelOverride.getD (seg.label key))
      if raw = "" then
        match hint with
        | some h => (Except.ok ⟨h.lat, h.lng, none⟩, g, 0)
        | none => (Except.error ("Missing geocode label"), g, 0)
      else
        match geocodePlace env g raw hint with
        | (Except.ok e, g2, n) => (Except.ok ⟨e.lat, e.lng, some e.displayName⟩, g2, n)
        | (Except.error m, g2, n) => (Except.error m, g2, n)

/-- Rounding of `Number.prototype.toFixed(6)` (ties go to the larger
value). -/
def rnd6 (q : ℚ) : ℚ := (⌊q * 1000000 + 1/2⌋ : ℚ) / 1000000

/-- Cache key `"lngF,latF|lngT,latT"` (six-decimal rounding), modelled as
the rounded quadruple. -/
def osrmKey (a b : Coord) : ℚ × ℚ × ℚ × ℚ := (rnd6 a.lng, rnd6 a.lat, rnd6 b.lng, rnd6 b.lat)

/-- A cached OSRM value: `none` models stored junk that is not an array. -/
abbrev CVal := Option (List CPt)

instance : DecidableEq (ℚ × ℚ × ℚ × ℚ) := inferInstance

instance : DecidableEq CVal := inferInstance

instance : DecidableEq ((ℚ × ℚ × ℚ × ℚ) × CVal) := instDecidableEqProd

/-- The persisted OSRM route cache, entries in insertion order. -/
structure OsrmCache where
  entries : List ((ℚ × ℚ × ℚ × ℚ) × CVal)
deriving DecidableEq, Repr

/-- Property lookup in the OSRM cache object. -/
def osrmLookup (c : OsrmCache) (k : ℚ × ℚ × ℚ × ℚ) : Option CVal :=
  (c.entries.find? (fun p => decide (p.1 = k))).map Prod.snd

/-- Property deletion (`delete cache[k]`). -/
def osrmErase (c : OsrmCache) (k : ℚ × ℚ × ℚ × ℚ) : OsrmCache :=
  ⟨c.entries.filter (fun p => !decide (p.1 = k))⟩

/-- Property assignment for the OSRM cache (existing keys keep their
position, new keys are appended). -/
def osrmSetEntries (l : List ((ℚ × ℚ × ℚ × ℚ) × CVal)) (k : ℚ × ℚ × ℚ × ℚ) (v : CVal) :
    List ((ℚ × ℚ × ℚ × ℚ) × CVal) :=
  match l with
  | [] => [(k, v)]
  | p :: rest => if p.1 = k then (k, v) :: rest else p :: osrmSetEntries rest k v

/-- Property assignment at the cache level. -/
def osrmSet (c : OsrmCache) (k : ℚ × ℚ × ℚ × ℚ) (v : CVal) : OsrmCache :=
  ⟨osrmSetEntries c.entries k v⟩

/-- Transcription of `looksSane`: the stored value is an array of at least
two points, each itself an array of at least two finite numbers. -/
def looksSane (v : CVal) : Bool :=
  match v with
  | some l =>
      decide (2 ≤ l.length)
        && l.all (fun p => match p with | some (some _, some _) => true | _ => false)
  | none => false

/-- Raw read `c[0]` (the longitude) of a stored point. -/
def cptLng (p : CPt) : ℚ :=
  match p with
  | some (ln, _) => ln.getD 0
  | none => 0

/-- Raw read `c[1]` (the latitude) of a stored point. -/
def cptLat (p : CPt) : ℚ :=
  match p with
  | some (_, la) => la.getD 0
  | none => 0

/-- Bounding-box fold `minLat` of the cached polyline. -/
def bboxMinLat (l : List CPt) : ℚ := l.foldl (fun m p => min m (cptLat p)) 90

/-- Bounding-box fold `maxLat`. -/
def bboxMaxLat (l : List CPt) : ℚ := l.foldl (fun m p => max m (cptLat p)) (-90)

/-- Bounding-box fold `minLng`. -/
def bboxMinLng (l : List CPt) : ℚ := l.foldl (fun m p => min m (cptLng p)) 180

/-- Bounding-box fold `maxLng`. -/
def bboxMaxLng (l : List CPt) : ℚ := l.foldl (fun m p => max m (cptLng p)) (-180)

/-- Transcription of the `within` check of `osrmRoute`
(`minLat > 45 && maxLat < 62 && minLng > -12 && maxLng < 5`). -/
def osrmWithin (l : List CPt) : Bool :=
  decide (45 < bboxMinLat l) && decide (bboxMaxLat l < 62)
    && decide (-12 < bboxMinLng l) && decide (bboxMaxLng l < 5)

/-- Network part of `osrmRoute`: fetch, payload length check (arrays of
fewer than two points yield `null` and are not cached), cache write with
bounded eviction (drop the 50 oldest keys once more than 250 are stored). -/
def osrmNet (env : Env) (cache : OsrmCache) (a b : Coord) : Option (List CPt) × OsrmCache × ℕ :=
  match env.osrmFetch a b with
  | none => (none, cache, 1)
  | some coords =>
      if coords.length < 2 then (none, cache, 1)
      else
        let c1 := osrmSet cache (osrmKey a b) (some coords)
        let c2 : OsrmCache := if 250 < c1.entries.length then ⟨c1.entries.drop 50⟩ else c1
        (some coords, c2, 1)

/-- Transcription of `osrmRoute(from, to)`: a cache hit is validated on read
(`looksSane` and the bounding box); invalid entries are deleted and
refetched; misses are fetched and cached.  The third component counts
`fetch` calls. -/
def osrmRoute (env : Env) (cache : OsrmCache) (a b : Coord) : Option (List CPt) × OsrmCache × ℕ :=
  let k := osrmKey a b
  match osrmLookup cache k with
  | some v =>
      if looksSane v then
        match v with
        | some l =>
            if osrmWithin l then (some l, cache, 0)
            else osrmNet env (osrmErase cache k) a b
        | none => osrmNet env (osrmErase cache k) a b
      else osrmNet env (osrmErase cache k) a b
  | none => osrmNet env cache a b

/-- A stored route (JSON): absent strings are `""`, absent coordinate
objects are `none`. -/
structure Route where
  id : String
  title : String
  notes : String
  startLabel : String
  startPostcode : String
  endLabel : String
  endPostcode : String
  startCoords : Option RawCoords
  endCoords : Option RawCoords
  segments : List Segment
deriving DecidableEq, Repr

/-- Element access `String(segs[i]?.[key] ?? "")` (out of bounds → empty). -/
def segLabelAt (segs : List Segment) (i : ℕ) (key : EndKey) : String :=
  match segs[i]? with
  | some s => s.label key
  | none => ""

/-- Element access `String(segs[i]?.road || "")`. -/
def segRoadAt (segs : List Segment) (i : ℕ) : String :=
  match segs[i]? with
  | some s => s.road
  | none => ""

/-- Transcription of `effectiveLabelForEndpoint(route, segs, i, key)`:
road-only labels are dropped, plain place labels pass through, instruction
labels yield their road token or fall back to the route start/end anchor or
to the neighbouring segment's opposite label. -/
def effectiveLabelForEndpoint (r : Route) (segs : List Segment) (i : ℕ) (key : EndKey) :
    String :=
  let raw := trimS (segLabelAt segs i key)
  if isRoadOnlyLabel raw then ""
  else if isInstructionLikeLabel raw = false then raw
  else
    let tok := extractRoadToken raw
    if tok ≠ "" then tok
    else if key = EndKey.toK ∧ i + 1 = segs.length then
      jsOr (trimS (jsOr r.endPostcode r.endLabel)) raw
    else if key = EndKey.fromK ∧ i = 0 then
      jsOr (trimS (jsOr r.startPostcode r.startLabel)) raw
    else if key = EndKey.toK ∧ i + 1 < segs.length then
      let nextFrom := trimS (segLabelAt segs (i + 1) EndKey.fromK)
      let nextTok := jsOr (extractRoadToken nextFrom) (extractRoadToken (segRoadAt segs (i + 1)))
      if isInstructionLikeLabel nextFrom = false ∧ nextFrom ≠ "" then nextFrom
      else jsOr nextTok (jsOr (trimS (segRoadAt segs (i + 1))) raw)
    else if key = EndKey.fromK ∧ 1 ≤ i then
      let prevTo := trimS (segLabelAt segs (i - 1) EndKey.toK)
      let prevTok := jsOr (extractRoadToken prevTo) (extractRoadToken (segRoadAt segs (i - 1)))
      if isInstructionLikeLabel prevTo = false ∧ prevTo ≠ "" then prevTo
      else jsOr prevTok (jsOr (trimS (segRoadAt segs (i - 1))) raw)
    else raw

/-- Transcription of the `pick` helper inside `nextAnchorLabel`. -/
def nalPick (v : String) : String :=
  if v = "" then ""
  else if isRoadOnlyLabel v then ""
  else if isInstructionLikeLabel v = false then v
  else if hasPostcode v then v
  else ""

/-- Tail scan of `nextAnchorLabel` over the remaining segments. -/
def nalGo (r : Route) : List Segment → String
  | [] => trimS (jsOr r.endPostcode r.endLabel)
  | s :: rest =>
      let p1 := nalPick (trimS s.fromL)
      if p1 ≠ "" then p1
      else
        let p2 := nalPick (trimS s.toL)
        if p2 ≠ "" then p2
        else nalGo r rest

/-- Transcription of `nextAnchorLabel(idx)` inside `drawRoutesOnMap`. -/
def nextAnchorLabel (r : Route) (segs : List Segment) (idx : ℕ) : String :=
  nalGo r (segs.drop (idx + 1))

/-- Initialization of the chain anchor `prev` at the top of the per-route
loop of `drawRoutesOnMap`: it runs only when the start anchor label
(`startPostcode || startLabel`, trimmed) is nonempty; an envelope-valid
`startCoords` wins, else the label is geocoded (errors caught to `null`). -/
def initPrev (env : Env) (g : GeoCache) (r : Route) : Option Coord × GeoCache × ℕ :=
  let startAnchorLabel := trimS (jsOr r.startPostcode r.startLabel)
  if startAnchorLabel = "" then (none, g, 0)
  else if inUkBoundsRaw r.startCoords then (some (rawCoord r.startCoords), g, 0)
  else
    match geocodePlace env g startAnchorLabel none with
    | (Except.ok e, g2, n) => (some ⟨e.lat, e.lng⟩, g2, n)
    | (Except.error _, g2, n) => (none, g2, n)

/-- Kind of an emitted polyline: a per-segment line, or the whole-route
fallback line. -/
inductive PolyKind where
  | segLine
  | fallbackLine
deriving DecidableEq, Repr

/-- A rendered polyline: its points as `[lat, lng]` pairs (raw, as mapped
from the OSRM-style coordinate array), its colour, and its `dashArray`
(`none` when solid). -/
structure Polyline where
  kind : PolyKind
  pts : List (Option ℚ × Option ℚ)
  color : String
  dash : Option String
deriving DecidableEq, Repr

/-- Transcription of `riskColor`. -/
def riskColor (risk : String) : String :=
  if risk = "H" then "#ef4444" else if risk = "M" then "#f59e0b" else "#22c55e"

/-- Mapping `coords.map(c => [c[1], c[0]])` on one stored point (a non-array
element yields undefined components). -/
def cptLatLng (p : CPt) : Option ℚ × Option ℚ :=
  match p with
  | some q => (q.2, q.1)
  | none => (none, none)

/-- State of the per-route build: the chain anchor `prev`, the
`failedSegments` count, the emitted polylines, the accumulated `bounds`
points, and both persisted caches. -/
structure BuildSt where
  prev : Option Coord
  failed : ℕ
  lines : List Polyline
  bounds : List (Option ℚ × Option ℚ)
  geo : GeoCache
  osrm : OsrmCache
deriving DecidableEq, Repr

/-- Resolution part of one segment iteration of `drawRoutesOnMap` (the
non-geometry branch, up to the distance guard): the `from` anchor is `prev`,
else envelope-valid pinned `fromCoords`, else a geocode of the effective
`from` label (when nonempty and not road-only), else the iteration fails;
the `to` anchor is envelope-valid pinned `toCoords`, else a geocode of the
effective/next-anchor `to` label with the `from` point as hint; the `to`
anchor must exist and satisfy the envelope, and the pair must pass the
180 km jump guard.  An error carries the geocode cache at the failure. -/
def segResolve (env : Env) (r : Route) (segs : List Segment) (i : ℕ) (seg : Segment)
    (st : BuildSt) : Except GeoCache (Coord × Coord × GeoCache) :=
  let fromLabel := effectiveLabelForEndpoint r segs i EndKey.fromK
  let toLabel0 := effectiveLabelForEndpoint r segs i EndKey.toK
  let toLabel := if toLabel0 = "" then nextAnchorLabel r segs i else toLabel0
  let aRes : Except GeoCache (Coord × GeoCache) :=
    match st.prev with
    | some p => Except.ok (p, st.geo)
    | none =>
        if inUkBoundsRaw seg.fromCoords then Except.ok (rawCoord seg.fromCoords, st.geo)
        else if fromLabel ≠ "" ∧ looksLikeRoadOnly fromLabel = false then
          match geocodePlace env st.geo fromLabel none with
          | (Except.ok e, g2, _) => Except.ok (⟨e.lat, e.lng⟩, g2)
          | (Except.error _, g2, _) => Except.error g2
        else Except.error st.geo
  match aRes with
  | Except.error g => Except.error g
  | Except.ok (a, g1) =>
      let bRes : Except GeoCache (Option Coord × GeoCache) :=
        if inUkBoundsRaw seg.toCoords then Except.ok (some (rawCoord seg.toCoords), g1)
        else if toLabel ≠ "" then
          match geocodePlace env g1 toLabel (some a) with
          | (Except.ok e, g2, _) => Except.ok (some ⟨e.lat, e.lng⟩, g2)
          | (Except.error _, g2, _) => Except.error g2
        else Except.ok (none, g1)
      match bRes with
      | Except.error g => Except.error g
      | Except.ok (bOpt, g2) =>
          match bOpt with
          | none => Except.error g2
          | some b =>
              if inUkBounds b.lat b.lng = false then Except.error g2
              else if 180 < env.distKm a b then Except.error g2
              else Except.ok (a, b, g2)

/-- Non-geometry branch of one segment iteration: on a resolution/guard
failure the `catch` increments `failedSegments` and leaves everything but
the geocode cache unchanged; on success `prev` advances to the `to` anchor
and the routed (or straight dashed) polyline is emitted. -/
def segStepResolve (env : Env) (r : Route) (segs : List Segment) (i : ℕ) (seg : Segment)
    (st : BuildSt) : BuildSt :=
  match segResolve env r segs i seg st with
  | Except.error g => { st with failed := st.failed + 1, geo := g }
  | Except.ok (a, b, g2) =>
      let o := osrmRoute env st.osrm a b
      let latlngs := match o.1 with
        | some coords => coords.map cptLatLng
        | none => [(some a.lat, some a.lng), (some b.lat, some b.lng)]
      let dash : Option String := match o.1 with
        | some _ => none
        | none => some ("10 10")
      { prev := some b, failed := st.failed,
        lines := st.lines ++ [⟨PolyKind.segLine, latlngs, riskColor seg.risk, dash⟩],
        bounds := st.bounds ++ latlngs, geo := g2, osrm := o.2.1 }

/-- One iteration of the segment loop of `drawRoutesOnMap`: stored geometry
(an array of at least two points) is used directly, advancing `prev` to its
last point when that point is in the envelope; otherwise the endpoints are
resolved and routed. -/
def segStep (env : Env) (r : Route) (segs : List Segment) (i : ℕ) (st : BuildSt) : BuildSt :=
  match segs[i]? with
  | none => st
  | some seg =>
      match seg.geometry with
      | some geomList =>
          if 2 ≤ geomList.length then
            let latlngs := geomList.map (fun p => (some p.2, some p.1))
            let prevNew := match geomList.getLast? with
              | some lp => if inUkBounds lp.2 lp.1 then some (⟨lp.2, lp.1⟩ : Coord) else st.prev
              | none => st.prev
            { st with
                prev := prevNew,
                lines := st.lines ++ [⟨PolyKind.segLine, latlngs, riskColor seg.risk, none⟩],
                bounds := st.bounds ++ latlngs }
          else segStepResolve env r segs i seg st
      | none => segStepResolve env r segs i seg st

/-- The `for (let i = 0; i < segs.length; i++)` loop as a fold over the
index list. -/
def segLoop (env : Env) (r : Route) (segs : List Segment) : List ℕ → BuildSt → BuildSt
  | [], st => st
  | i :: rest, st => segLoop env r segs rest (segStep env r segs i st)

/-- Resolution of the whole-route fallback anchors (start, then end with the
start as hint), as in the `failedSegments > 0` block of `drawRoutesOnMap`;
`none` when a geocode fails (the surrounding `try` swallows the error, so
the end anchor is not attempted after a failed start anchor). -/
def fallbackAnchors (env : Env) (g : GeoCache) (r : Route) :
    Option (Coord × Coord) × GeoCache :=
  let sRes : Except GeoCache (Coord × GeoCache) :=
    if inUkBoundsRaw r.startCoords then Except.ok (rawCoord r.startCoords, g)
    else
      match geocodePlace env g (trimS (jsOr r.startPostcode r.startLabel)) none with
      | (Except.ok e, g2, _) => Except.ok (⟨e.lat, e.lng⟩, g2)
      | (Except.error _, g2, _) => Except.error g2
  match sRes with
  | Except.error g1 => (none, g1)
  | Except.ok (s, g1) =>
      if inUkBoundsRaw r.endCoords then (some (s, rawCoord r.endCoords), g1)
      else
        match geocodePlace env g1 (trimS (jsOr r.endPostcode r.endLabel)) (some s) with
        | (Except.ok e, g2, _) => (some (s, ⟨e.lat, e.lng⟩), g2)
        | (Except.error _, g2, _) => (none, g2)

/-- The whole-route fallback block: when at least one segment failed, one
additional muted start → end polyline is drawn, provided both anchors
resolve inside the envelope. -/
def routeFallback (env : Env) (r : Route) (st : BuildSt) : BuildSt :=
  if 0 < st.failed then
    match fallbackAnchors env st.geo r with
    | (none, g1) => { st with geo := g1 }
    | (some (s, e), g1) =>
        if inUkBounds s.lat s.lng && inUkBounds e.lat e.lng then
          let o := osrmRoute env st.osrm s e
          let latlngs := match o.1 with
            | some coords => coords.map cptLatLng
            | none => [(some s.lat, some s.lng), (some e.lat, some e.lng)]
          let dash : String := match o.1 with
            | some _ => "10 10"
            | none => "6 10"
          { st with
              lines := st.lines ++ [⟨PolyKind.fallbackLine, latlngs, "#9aa0a6", some dash⟩],
              bounds := st.bounds ++ latlngs, geo := g1, osrm := o.2.1 }
        else { st with geo := g1 }
  else st

/-- The per-route body of `drawRoutesOnMap`: initialize the chain anchor,
fold the segment loop over all segment indices, then apply the whole-route
fallback. -/
def buildRoute (env : Env) (g : GeoCache) (oc : OsrmCache) (r : Route) : BuildSt :=
  let ip := initPrev env g r
  let st0 : BuildSt := ⟨ip.1, 0, [], [], ip.2.1, oc⟩
  let st1 := segLoop env r r.segments (List.range r.segments.length) st0
  routeFallback env r st1

/-! Concrete fixtures for witnesses and counterexamples. -/

/-- Trivial environment: all oracles fail, all distances are zero. -/
def envTriv : Env := ⟨fun _ _ => 0, fun _ _ => 0, fun _ => none, fun _ _ => none⟩

/-- Concrete computable stand-in (metres) for the abstracted haversine
distance, used only to instantiate the distance parameter in witnesses. -/
def taxiM (a b : Coord) : ℚ := (|a.lat - b.lat| + |a.lng - b.lng|) * 111000

/-- Kilometre variant of `taxiM`. -/
def taxiKm (a b : Coord) : ℚ := (|a.lat - b.lat| + |a.lng - b.lng|) * 111

/-- A segment with no fields set. -/
def segEmpty : Segment := ⟨"", "", "", "", "", none, none, none⟩

/-- A Photon feature for Ely (inside the envelope). -/
def featEly : Feature := ⟨some 0.26, some 52.4, "Ely", ""⟩

/-- Environment whose place search answers the UK-biased query for Ely. -/
def envEly : Env :=
  ⟨taxiM, taxiKm, fun q => if q = "Ely, UK" then some [featEly] else none, fun _ _ => none⟩

/-- Environment whose place search only answers the raw-label query, so the
UK-biased first attempt misses. -/
def envRetry : Env :=
  ⟨taxiM, taxiKm, fun q => if q = "Ely" then some [featEly] else none, fun _ _ => none⟩

/-! Helper lemmas about the envelope and the geocoding pipeline. -/

theorem inUkBoundsOpt_getD {la ln : Option ℚ} (h : inUkBoundsOpt la ln = true) :
    inUkBounds (la.getD 0) (ln.getD 0) = true := by
  cases la with
  | none => simp [inUkBoundsOpt] at h
  | some a =>
      cases ln with
      | none => simp [inUkBoundsOpt] at h
      | some b => simpa [inUkBoundsOpt] using h

theorem resolveOverride_some_bounds {c : Option RawCoords} {hit : GeoHit}
    (h : resolveOverride c = some hit) : inUkBounds hit.lat hit.lng = true := by
  cases c with
  | none => simp [resolveOverride] at h
  | some rc =>
      cases hla : rc.lat with
      | none => simp [resolveOverride, hla] at h
      | some la =>
          cases hln : rc.lng with
          | none => simp [resolveOverride, hla, hln] at h
          | some ln =>
              by_cases hb : inUkBounds la ln = true
              · simp only [resolveOverride, hla, hln, hb, if_true] at h
                cases h
                exact hb
              · simp [resolveOverride, hla, hln, hb] at h

theorem resolveOverride_none_of_invalid {c : Option RawCoords}
    (h : inUkBoundsRaw c = false) : resolveOverride c = none := by
  cases c with
  | none => rfl
  | some rc =>
      cases hla : rc.lat with
      | none => simp [resolveOverride, hla]
      | some la =>
          cases hln : rc.lng with
          | none => simp [resolveOverride, hla, hln]
          | some ln =>
              have hb : inUkBounds la ln = false := by
                simpa [inUkBoundsRaw, inUkBoundsOpt, hla, hln] using h
              simp [resolveOverride, hla, hln, hb]

theorem geoNet_ok_fields {env : Env} {fresh stored : GeoCache} {label k : String}
    {hint : Option Coord} {e : GeoHit} {g2 : GeoCache} {n : ℕ}
    (h : geoNet env fresh stored label k hint = (Except.ok e, g2, n)) :
    ∃ la ln dn, inUkBoundsOpt la ln = true ∧ e = ⟨la.getD 0, ln.getD 0, dn⟩ ∧
      g2 = geoSet fresh k ⟨la, ln, dn⟩ ∧ n ≤ 2 := by
  unfold geoNet at h
  cases h1 : tryFetch env (label ++ (", UK")) hint with
  | some f =>
      simp only [h1] at h
      by_cases hb : inUkBoundsOpt f.lat f.lng = true
      · simp only [hb, if_true] at h
        simp only [Prod.mk.injEq, Except.ok.injEq] at h
        obtain ⟨he, hg, hn⟩ := h
        exact ⟨f.lat, f.lng, displayNameOf f label, hb, he.symm, hg.symm, by omega⟩
      · rw [if_neg hb] at h
        simp at h
  | none =>
      simp only [h1] at h
      cases h2 : tryFetch env label hint with
      | some f =>
          simp only [h2] at h
          by_cases hb : inUkBoundsOpt f.lat f.lng = true
          · simp only [hb, if_true] at h
            simp only [Prod.mk.injEq, Except.ok.injEq] at h
            obtain ⟨he, hg, hn⟩ := h
            exact ⟨f.lat, f.lng, displayNameOf f label, hb, he.symm, hg.symm, by omega⟩
          · rw [if_neg hb] at h
            simp at h
      | none =>
          simp only [h2] at h
          simp at h

theorem geocodePlace_eq_hit {g : GeoCache} {label : String} {c : GeoEntry} (env : Env)
    (hint : Option Coord) (hk : normKey label ≠ "")
    (hl : geoLookup (freshOf g) (normKey label) = some c)
    (hb : inUkBoundsOpt c.lat c.lng = true) :
    geocodePlace env g label hint
      = (Except.ok ⟨c.lat.getD 0, c.lng.getD 0, c.displayName⟩, storedOf g, 0) := by
  simp [geocodePlace, hk, hl, hb]

theorem geocodePlace_eq_purge {g : GeoCache} {label : String} {c : GeoEntry} (env : Env)
    (hint : Option Coord) (hk : normKey label ≠ "")
    (hl : geoLookup (freshOf g) (normKey label) = some c)
    (hb : inUkBoundsOpt c.lat c.lng = false) :
    geocodePlace env g label hint
      = geoNet env (geoErase (freshOf g) (normKey label)) (geoErase (freshOf g) (normKey label))
          label (normKey label) hint := by
  simp [geocodePlace, hk, hl, hb]

theorem geocodePlace_eq_miss {g : GeoCache} {label : String} (env : Env)
    (hint : Option Coord) (hk : normKey label ≠ "")
    (hl : geoLookup (freshOf g) (normKey label) = none) :
    geocodePlace env g label hint
      = geoNet env (freshOf g) (storedOf g) label (normKey label) hint := by
  simp [geocodePlace, hk, hl]

theorem geocodePlace_ok_bounds {env : Env} {g : GeoCache} {label : String}
    {hint : Option Coord} {e : GeoHit} {g2 : GeoCache} {n : ℕ}
    (h : geocodePlace env g label hint = (Except.ok e, g2, n)) :
    inUkBounds e.lat e.lng = true := by
  by_cases hk : normKey label = ""
  · simp [geocodePlace, hk] at h
  · cases hl : geoLookup (freshOf g) (normKey label) with
    | some c =>
        by_cases hb : inUkBoundsOpt c.lat c.lng = true
        · rw [geocodePlace_eq_hit env hint hk hl hb] at h
          simp only [Prod.mk.injEq, Except.ok.injEq] at h
          rw [← h.1]
          exact inUkBoundsOpt_getD hb
        · rw [geocodePlace_eq_purge env hint hk hl (Bool.not_eq_true _ ▸ hb)] at h
          obtain ⟨la, ln, dn, hbo, he, _, _⟩ := geoNet_ok_fields h
          rw [he]
          exact inUkBoundsOpt_getD hbo
    | none =>
        rw [geocodePlace_eq_miss env hint hk hl] at h
        obtain ⟨la, ln, dn, hbo, he, _, _⟩ := geoNet_ok_fields h
        rw [he]
        exact inUkBoundsOpt_getD hbo

/-! Claim C1. -/

/-- C1 — counterexample: with no override, an empty label and the
out-of-envelope hint `(0, 0)`, `resolveEndpoint` returns the hint verbatim:
a coordinate outside the geographic envelope is returned to the caller. -/
theorem claim_C1_counterexample :
    resolveEndpoint envTriv emptyGeoCache segEmpty EndKey.fromK (some ⟨0, 0⟩) none
      = (Except.ok ⟨0, 0, none⟩, emptyGeoCache, 0) ∧ inUkBounds 0 0 = false :=
  ⟨rfl, by decide⟩

/-- C1 (amended): every coordinate successfully returned by `geocodePlace`
satisfies the geographic envelope; every coordinate successfully returned by
`resolveEndpoint` satisfies the envelope unless it is the caller-supplied
hint returned verbatim for an empty label — in particular, callers that pass
no hint, or an in-envelope hint, never receive an out-of-envelope
coordinate. -/
theorem claim_C1_amended (env : Env) (g : GeoCache) (label : String) (hint : Option Coord)
    (seg : Segment) (key : EndKey) (lo : Option String) :
    (∀ e g2 n, geocodePlace env g label hint = (Except.ok e, g2, n) →
      inUkBounds e.lat e.lng = true) ∧
    (∀ res g2 n, resolveEndpoint env g seg key hint lo = (Except.ok res, g2, n) →
      inUkBounds res.lat res.lng = true ∨
        ∃ hc, hint = some hc ∧ res = ⟨hc.lat, hc.lng, none⟩) := by
  constructor
  · intro e g2 n h
    exact geocodePlace_ok_bounds h
  · intro res g2 n h
    cases hov : resolveOverride (seg.keyCoords key) with
    | some c =>
        have heq : resolveEndpoint env g seg key hint lo
            = (Except.ok ⟨c.lat, c.lng, some c.displayName⟩, g, 0) := by
          simp [resolveEndpoint, hov]
        rw [heq] at h
        simp only [Prod.mk.injEq, Except.ok.injEq] at h
        left
        rw [← h.1]
        exact resolveOverride_some_bounds hov
    | none =>
        by_cases hr : trimS (lo.getD (seg.label key)) = ""
        · cases hint with
          | some hc =>
              have heq : resolveEndpoint env g seg key (some hc) lo
                  = (Except.ok ⟨hc.lat, hc.lng, none⟩, g, 0) := by
                simp [resolveEndpoint, hov, hr]
              rw [heq] at h
              simp only [Prod.mk.injEq, Except.ok.injEq] at h
              exact Or.inr ⟨hc, rfl, h.1.symm⟩
          | none =>
              have heq : resolveEndpoint env g seg key none lo
                  = (Except.error ("Missing geocode label"), g, 0) := by
                simp [resolveEndpoint, hov, hr]
              rw [heq] at h
              simp at h
        · cases hgc : geocodePlace env g (trimS (lo.getD (seg.label key))) hint with
          | mk r1 r2 =>
              cases r2 with
              | mk gg nn =>
                  cases r1 with
                  | ok e =>
                      have heq : resolveEndpoint env g seg key hint lo
                          = (Except.ok ⟨e.lat, e.lng, some e.displayName⟩, gg, nn) := by
                        simp [resolveEndpoint, hov, hr, hgc]
                      rw [heq] at h
                      simp only [Prod.mk.injEq, Except.ok.injEq] at h
                      left
                      rw [← h.1]
                      exact geocodePlace_ok_bounds hgc
                  | error m =>
                      have heq : resolveEndpoint env g seg key hint lo
                          = (Except.error m, gg, nn) := by
                        simp [resolveEndpoint, hov, hr, hgc]
                      rw [heq] at h
                      simp at h

/-- C1 witness: the amended claim at a concrete successful geocode (Ely):
the returned coordinate satisfies the envelope. -/
theorem claim_C1_witness : inUkBounds 52.4 0.26 = true :=
  (claim_C1_amended envEly emptyGeoCache ("Ely") none segEmpty EndKey.fromK none).1
    ⟨52.4, 0.26, "Ely"⟩ ⟨some 2, [(("ely"), ⟨some 52.4, some 0.26, "Ely"⟩)]⟩ 1 rfl

/-! Claim C2. -/

/-- Route with an envelope-valid `startCoords` but empty start labels. -/
def rNoLabel : Route := ⟨"r-c2", "", "", "", "", "", "", some ⟨some 52, some 0⟩, none, []⟩

/-- C2 — counterexample: a route whose `startCoords` is envelope-valid but
whose start anchor label (`startPostcode || startLabel`) is empty does not
begin its chain at `startCoords`: `prev` is initialized to `none`. -/
theorem claim_C2_counterexample :
    inUkBoundsRaw rNoLabel.startCoords = true ∧
    initPrev envTriv emptyGeoCache rNoLabel = (none, emptyGeoCache, 0) :=
  ⟨by decide, rfl⟩

/-- C2 (amended): whenever the start anchor label
(`startPostcode || startLabel`, trimmed) is nonempty, the path build
initializes `prev` from `route.startCoords` when it is envelope-valid and
otherwise from the geocode of that label (`none` on geocode failure); with
an empty anchor label, `prev` starts as `none` even when `startCoords` is
envelope-valid. -/
theorem claim_C2_amended (env : Env) (g : GeoCache) (r : Route)
    (hl : trimS (jsOr r.startPostcode r.startLabel) ≠ "") :
    (inUkBoundsRaw r.startCoords = true →
      initPrev env g r = (some (rawCoord r.startCoords), g, 0)) ∧
    (inUkBoundsRaw r.startCoords = false →
      (∀ e g2 n, geocodePlace env g (trimS (jsOr r.startPostcode r.startLabel)) none
          = (Except.ok e, g2, n) → initPrev env g r = (some ⟨e.lat, e.lng⟩, g2, n)) ∧
      (∀ m g2 n, geocodePlace env g (trimS (jsOr r.startPostcode r.startLabel)) none
          = (Except.error m, g2, n) → initPrev env g r = (none, g2, n))) := by
  refine ⟨fun hb => ?_, fun hb => ⟨fun e g2 n hgc => ?_, fun m g2 n hgc => ?_⟩⟩
  · simp [initPrev, hl, hb]
  · simp [initPrev, hl, hb, hgc]
  · simp [initPrev, hl, hb, hgc]

/-- Route with an envelope-valid `startCoords` and a nonempty start
postcode. -/
def rGood : Route := ⟨"r-c2w", "", "", "", "CB8", "", "", some ⟨some 52.2, some 0.4⟩, none, []⟩

/-- C2 witness: the amended claim at a concrete route — the chain starts at
`startCoords`. -/
theorem claim_C2_witness :
    initPrev envTriv emptyGeoCache rGood = (some ⟨52.2, 0.4⟩, emptyGeoCache, 0) :=
  (claim_C2_amended envTriv emptyGeoCache rGood (by decide)).1 (by decide)

/-! Claim C4. -/

/-- Segment with a present but envelope-invalid `fromCoords` override and a
geocodable label. -/
def segBadOv : Segment := ⟨"", "Ely", "", "", "", some ⟨some 0, some 0⟩, none, none⟩

/-- C4 — counterexample: a present but envelope-invalid `fromCoords`
override `(0, 0)` does not take precedence: the textual label is geocoded
(one place-search call is made) and the geocoded coordinate is returned. -/
theorem claim_C4_counterexample :
    segBadOv.fromCoords.isSome = true ∧
    resolveEndpoint envEly emptyGeoCache segBadOv EndKey.fromK none none
      = (Except.ok ⟨52.4, 0.26, some ("Ely")⟩,
         ⟨some 2, [(("ely"), ⟨some 52.4, some 0.26, "Ely"⟩)]⟩, 1) :=
  ⟨rfl, rfl⟩

/-- The segment with the `{key}Coords` override removed. -/
def segClearCoords (seg : Segment) : EndKey → Segment
  | .fromK => { seg with fromCoords := none }
  | .toK => { seg with toCoords := none }

/-- C4 (amended): an envelope-valid `{key}Coords` override takes absolute
precedence over the textual label and the label is never geocoded; a
present but envelope-invalid override is ignored, and resolution proceeds
exactly as if the override were absent (so the label may be geocoded). -/
theorem claim_C4_amended (env : Env) (g : GeoCache) (seg : Segment) (key : EndKey)
    (hint : Option Coord) (lo : Option String) :
    (∀ la ln, seg.keyCoords key = some ⟨some la, some ln⟩ → inUkBounds la ln = true →
      resolveEndpoint env g seg key hint lo
        = (Except.ok ⟨la, ln, some ("Override")⟩, g, 0)) ∧
    (inUkBoundsRaw (seg.keyCoords key) = false →
      resolveEndpoint env g seg key hint lo
        = resolveEndpoint env g (segClearCoords seg key) key hint lo) := by
  constructor
  · intro la ln hc hb
    simp [resolveEndpoint, resolveOverride, hc, hb]
  · intro hb
    have h1 : resolveOverride (seg.keyCoords key) = none := resolveOverride_none_of_invalid hb
    have h2 : resolveOverride ((segClearCoords seg key).keyCoords key) = none := by
      cases key <;> rfl
    have h3 : (segClearCoords seg key).label key = seg.label key := by
      cases key <;> rfl
    simp [resolveEndpoint, h1, h2, h3]

/-- C4 witness: the amended claim at the invalid-override segment — the
result equals resolution with the override absent. -/
theorem claim_C4_witness :
    resolveEndpoint envEly emptyGeoCache segBadOv EndKey.fromK none none
      = resolveEndpoint envEly emptyGeoCache (segClearCoords segBadOv EndKey.fromK)
          EndKey.fromK none none :=
  (claim_C4_amended envEly emptyGeoCache segBadOv EndKey.fromK none none).2 (by decide)

/-! Claim C5. -/

/-- C5: an envelope-valid `{key}Coords` override is returned verbatim (as
`{lat, lng, displayName: "Override"}`) with zero network calls, whatever the
label text, the hint, or the label override. -/
theorem claim_C5 (env : Env) (g : GeoCache) (seg : Segment) (key : EndKey)
    (hint : Option Coord) (lo : Option String) (la ln : ℚ)
    (hc : seg.keyCoords key = some ⟨some la, some ln⟩)
    (hb : inUkBounds la ln = true) :
    resolveEndpoint env g seg key hint lo = (Except.ok ⟨la, ln, some ("Override")⟩, g, 0) := by
  simp [resolveEndpoint, resolveOverride, hc, hb]

/-- Segment with the spec's example override `toCoords: {lat: 52.5,
lng: -0.9}` and pure instruction noise as its `to` text. -/
def segOv : Segment :=
  ⟨"", "", "At roundabout take 3rd exit onto A17", "", "", none,
   some ⟨some 52.5, some (-0.9)⟩, none⟩

/-- C5 witness: the override is used verbatim with no network call even
though the `to` text is instruction noise. -/
theorem claim_C5_witness :
    resolveEndpoint envTriv emptyGeoCache segOv EndKey.toK none none
      = (Except.ok ⟨52.5, -0.9, some ("Override")⟩, emptyGeoCache, 0) ∧
    isInstructionLikeLabel segOv.toL = true :=
  ⟨claim_C5 envTriv emptyGeoCache segOv EndKey.toK none none 52.5 (-0.9) rfl (by decide),
   by decide⟩

/-! Claim C8. -/

theorem prod3_eq {α β γ : Type _} {a c : α} {b d : β} {u v : γ}
    (h : (a, b, u) = (c, d, v)) : a = c ∧ b = d ∧ u = v :=
  ⟨congrArg Prod.fst h, congrArg (fun t => t.2.1) h, congrArg (fun t => t.2.2) h⟩

theorem geoLookup_geoSetEntries (l : List (String × GeoEntry)) (k : String) (v : GeoEntry) :
    (List.find? (fun p => p.1 == k) (geoSetEntries l k v)).map Prod.snd = some v := by
  induction l with
  | nil => simp [geoSetEntries]
  | cons p rest ih =>
      by_cases hp : (p.1 == k) = true
      · simp [geoSetEntries, hp, List.find?]
      · simp only [geoSetEntries, hp, if_false, Bool.false_eq_true]
        simp only [List.find?, hp]
        exact ih

theorem geoLookup_geoSet (c : GeoCache) (k : String) (v : GeoEntry) :
    geoLookup (geoSet c k v) k = some v :=
  geoLookup_geoSetEntries c.entries k v

theorem freshOf_ver (g : GeoCache) : (freshOf g).ver = some geocodeCacheVersion := by
  unfold freshOf
  by_cases hv : g.ver = some geocodeCacheVersion
  · rw [if_pos hv]; exact hv
  · rw [if_neg hv]

theorem freshOf_of_ver {g : GeoCache} (hv : g.ver = some geocodeCacheVersion) :
    freshOf g = g := by unfold freshOf; rw [if_pos hv]

theorem storedOf_of_ver {g : GeoCache} (hv : g.ver = some geocodeCacheVersion) :
    storedOf g = g := by unfold storedOf; rw [if_pos hv]

theorem geocodePlace_second_from_cache (env2 : Env) (g1 : GeoCache) (label2 : String)
    (hint2 : Option Coord) (c : GeoEntry)
    (hv : g1.ver = some geocodeCacheVersion)
    (hk : normKey label2 ≠ "")
    (hl : geoLookup g1 (normKey label2) = some c)
    (hb : inUkBoundsOpt c.lat c.lng = true) :
    geocodePlace env2 g1 label2 hint2
      = (Except.ok ⟨c.lat.getD 0, c.lng.getD 0, c.displayName⟩, g1, 0) := by
  have hf : freshOf g1 = g1 := freshOf_of_ver hv
  have hs : storedOf g1 = g1 := storedOf_of_ver hv
  rw [geocodePlace_eq_hit env2 hint2 hk (by rw [hf]; exact hl) hb, hs]

/-- C8 — counterexample: with a place search that only answers the raw-label
query, the first `geocode("Ely")` alone performs two network calls (the
UK-biased attempt fails, the raw attempt succeeds) and the cache-served
second call performs none: two calls in total, not one. -/
theorem claim_C8_counterexample :
    (geocodePlace envRetry emptyGeoCache ("Ely") none).2.2 = 2 ∧
    (geocodePlace envRetry (geocodePlace envRetry emptyGeoCache ("Ely") none).2.1
        ("Ely") none).2.2 = 0 ∧
    (geocodePlace envRetry emptyGeoCache ("Ely") none).2.2
      + (geocodePlace envRetry (geocodePlace envRetry emptyGeoCache ("Ely") none).2.1
          ("Ely") none).2.2 ≠ 1 :=
  ⟨rfl, rfl, by decide⟩

/-- C8 (amended): a successful `geocode` persists its result, so a second
call with the same normalized key is served entirely from the cache — zero
network calls, the same coordinate, and an unchanged cache — while the
first call itself performs at most two network calls (two exactly when the
UK-biased query yields no usable candidate).  The key `"__v"` is excluded
because in the JavaScript cache object it collides with the version tag. -/
theorem claim_C8_amended (env : Env) (g : GeoCache) (label label2 : String)
    (hint hint2 : Option Coord) (e : GeoHit) (g1 : GeoCache) (n1 : ℕ)
    (h1 : geocodePlace env g label hint = (Except.ok e, g1, n1))
    (hk2 : normKey label2 = normKey label)
    (hvv : normKey label ≠ ("__v")) :
    geocodePlace env g1 label2 hint2 = (Except.ok e, g1, 0) ∧ n1 ≤ 2 := by
  by_cases hk0 : normKey label = ""
  · simp [geocodePlace, hk0] at h1
  · have hk2ne : normKey label2 ≠ "" := by rw [hk2]; exact hk0
    cases hl : geoLookup (freshOf g) (normKey label) with
    | some c =>
        by_cases hb : inUkBoundsOpt c.lat c.lng = true
        · rw [geocodePlace_eq_hit env hint hk0 hl hb] at h1
          obtain ⟨he, hg, hn⟩ := prod3_eq h1
          by_cases hver : g.ver = some geocodeCacheVersion
          · have hfg : freshOf g = g := freshOf_of_ver hver
            have hg1 : g1 = g := by rw [← hg, storedOf_of_ver hver]
            constructor
            · rw [hg1, geocodePlace_second_from_cache env g label2 hint2 c
                hver hk2ne (by rw [hk2, ← hfg]; exact hl) hb]
              rw [Except.ok.inj he]
            · omega
          · exfalso
            have hnone : geoLookup (freshOf g) (normKey label) = none := by
              unfold freshOf
              rw [if_neg hver]
              rfl
            rw [hnone] at hl
            cases hl
        · rw [geocodePlace_eq_purge env hint hk0 hl
            (by rw [Bool.not_eq_true] at hb; exact hb)] at h1
          obtain ⟨la, ln, dn, hbo, he, hg1, hn⟩ := geoNet_ok_fields h1
          have hver1 : g1.ver = some geocodeCacheVersion := by
            rw [hg1]
            exact freshOf_ver g
          have hl1 : geoLookup g1 (normKey label2) = some ⟨la, ln, dn⟩ := by
            rw [hk2, hg1]
            exact geoLookup_geoSet _ _ _
          refine ⟨?_, by omega⟩
          rw [geocodePlace_second_from_cache env g1 label2 hint2 ⟨la, ln, dn⟩
            hver1 hk2ne hl1 hbo, he]
    | none =>
        rw [geocodePlace_eq_miss env hint hk0 hl] at h1
        obtain ⟨la, ln, dn, hbo, he, hg1, hn⟩ := geoNet_ok_fields h1
        have hver1 : g1.ver = some geocodeCacheVersion := by
          rw [hg1]
          exact freshOf_ver g
        have hl1 : geoLookup g1 (normKey label2) = some ⟨la, ln, dn⟩ := by
          rw [hk2, hg1]
          exact geoLookup_geoSet _ _ _
        refine ⟨?_, by omega⟩
        rw [geocodePlace_second_from_cache env g1 label2 hint2 ⟨la, ln, dn⟩
          hver1 hk2ne hl1 hbo, he]

/-- The geocode cache after a successful lookup of Ely. -/
def cacheEly : GeoCache := ⟨some 2, [(("ely"), ⟨some 52.4, some 0.26, "Ely"⟩)]⟩

/-- C8 witness: after a successful first call (one network call), the second
call is served from the cache with zero network calls. -/
theorem claim_C8_witness :
    geocodePlace envEly cacheEly ("Ely") none
      = (Except.ok ⟨52.4, 0.26, "Ely"⟩, cacheEly, 0) ∧ 1 ≤ 2 :=
  claim_C8_amended envEly emptyGeoCache ("Ely") ("Ely") none none
    ⟨52.4, 0.26, "Ely"⟩ cacheEly 1 rfl rfl (by decide)

/-! Claim C9. -/

theorem foldl_min_le_init (f : CPt → ℚ) (l : List CPt) (a : ℚ) :
    l.foldl (fun m p => min m (f p)) a ≤ a := by
  induction l generalizing a with
  | nil => exact le_refl a
  | cons p rest ih =>
      exact le_trans (ih (min a (f p))) (min_le_left _ _)

theorem foldl_min_le_mem (f : CPt → ℚ) (l : List CPt) (a : ℚ) (p : CPt) (hp : p ∈ l) :
    l.foldl (fun m q => min m (f q)) a ≤ f p := by
  induction l generalizing a with
  | nil => cases hp
  | cons q rest ih =>
      rcases List.mem_cons.mp hp with h | h
      · subst h
        exact le_trans (foldl_min_le_init f rest (min a (f p))) (min_le_right _ _)
      · exact ih (min a (f q)) h

theorem foldl_max_ge_init (f : CPt → ℚ) (l : List CPt) (a : ℚ) :
    a ≤ l.foldl (fun m p => max m (f p)) a := by
  induction l generalizing a with
  | nil => exact le_refl a
  | cons p rest ih =>
      exact le_trans (le_max_left _ _) (ih (max a (f p)))

theorem foldl_max_ge_mem (f : CPt → ℚ) (l : List CPt) (a : ℚ) (p : CPt) (hp : p ∈ l) :
    f p ≤ l.foldl (fun m q => max m (f q)) a := by
  induction l generalizing a with
  | nil => cases hp
  | cons q rest ih =>
      rcases List.mem_cons.mp hp with h | h
      · subst h
        exact le_trans (le_max_right _ _) (foldl_max_ge_init f rest (max a (f p)))
      · exact ih (max a (f q)) h

/-- Stated from the claim's words (to be compared with the source's `within`
check): the cached polyline's bounding box lies entirely outside
`lat ∈ [45, 62]`, `lng ∈ [−12, 5]`, i.e. the two rectangles are disjoint. -/
def specBBoxEntirelyOutside (l : List CPt) : Bool :=
  decide (62 < bboxMinLat l) || decide (bboxMaxLat l < 45)
    || decide (5 < bboxMinLng l) || decide (bboxMaxLng l < -12)

theorem osrmWithin_false_of_outside {l : List CPt} (hne : l ≠ [])
    (ho : specBBoxEntirelyOutside l = true) : osrmWithin l = false := by
  obtain ⟨p, hp⟩ : ∃ p, p ∈ l := by
    cases l with
    | nil => exact absurd rfl hne
    | cons q rest => exact ⟨q, List.mem_cons_self q rest⟩
  have h1 : bboxMinLat l ≤ cptLat p := foldl_min_le_mem cptLat l 90 p hp
  have h2 : cptLat p ≤ bboxMaxLat l := foldl_max_ge_mem cptLat l (-90) p hp
  have h3 : bboxMinLng l ≤ cptLng p := foldl_min_le_mem cptLng l 180 p hp
  have h4 : cptLng p ≤ bboxMaxLng l := foldl_max_ge_mem cptLng l (-180) p hp
  rw [Bool.eq_false_iff]
  intro hw
  simp only [osrmWithin, Bool.and_eq_true, decide_eq_true_eq] at hw
  obtain ⟨⟨⟨w1, w2⟩, w3⟩, w4⟩ := hw
  simp only [specBBoxEntirelyOutside, Bool.or_eq_true, decide_eq_true_eq] at ho
  rcases ho with ((hc | hc) | hc) | hc <;> linarith

theorem osrmNet_calls (env : Env) (c2 : OsrmCache) (a b : Coord) :
    (osrmNet env c2 a b).2.2 = 1 := by
  unfold osrmNet
  cases env.osrmFetch a b with
  | none => rfl
  | some cs =>
      by_cases hl2 : cs.length < 2
      · simp [hl2]
      · simp [hl2]

/-- C9: a cached routed polyline that is malformed (not an array of at least
two finite numeric pairs) or whose bounding box lies entirely outside
`[45,62] × [−12,5]` is discarded on read: `osrmRoute` behaves exactly as if
the entry were absent, performing one routing-service fetch instead of
returning the cached value. -/
theorem claim_C9 (env : Env) (cache : OsrmCache) (a b : Coord) (v : CVal)
    (hl : osrmLookup cache (osrmKey a b) = some v)
    (hbad : looksSane v = false ∨ ∃ l, v = some l ∧ specBBoxEntirelyOutside l = true) :
    osrmRoute env cache a b = osrmNet env (osrmErase cache (osrmKey a b)) a b ∧
    (osrmRoute env cache a b).2.2 = 1 := by
  have hmain : osrmRoute env cache a b = osrmNet env (osrmErase cache (osrmKey a b)) a b := by
    by_cases hs : looksSane v = true
    · rcases hbad with hbad1 | ⟨l, hv, ho⟩
      · simp [hs] at hbad1
      · subst hv
        have hne : l ≠ [] := by
          simp only [looksSane, Bool.and_eq_true, decide_eq_true_eq] at hs
          intro hnil
          subst hnil
          simp at hs
        have hwin : osrmWithin l = false := osrmWithin_false_of_outside hne ho
        simp [osrmRoute, hl, hs, hwin]
    · rw [Bool.not_eq_true] at hs
      simp only [osrmRoute, hl, hs, Bool.false_eq_true, if_false]
  exact ⟨hmain, by rw [hmain]; exact osrmNet_calls env _ a b⟩

/-- A cached OSRM entry whose bounding box (latitude 100) lies entirely
outside the sanity rectangle. -/
def badOsrmCache : OsrmCache :=
  ⟨[(osrmKey ⟨52, 0⟩ ⟨52.1, 0.1⟩, some [some (some 100, some 100), some (some 101, some 100)])]⟩

/-- C9 witness: the far-away cached polyline is discarded and the routing
service is queried (once) instead of returning the cached value. -/
theorem claim_C9_witness :
    osrmRoute envTriv badOsrmCache ⟨52, 0⟩ ⟨52.1, 0.1⟩
      = osrmNet envTriv (osrmErase badOsrmCache (osrmKey ⟨52, 0⟩ ⟨52.1, 0.1⟩)) ⟨52, 0⟩ ⟨52.1, 0.1⟩
      ∧ (osrmRoute envTriv badOsrmCache ⟨52, 0⟩ ⟨52.1, 0.1⟩).2.2 = 1 :=
  claim_C9 envTriv badOsrmCache ⟨52, 0⟩ ⟨52.1, 0.1⟩
    (some [some (some 100, some 100), some (some 101, some 100)])
    rfl (Or.inr ⟨[some (some 100, some 100), some (some 101, some 100)], rfl, by decide⟩)

/-! Claim C3. -/

theorem pickLoop_snd_dist (env : Env) (h : Coord) :
    ∀ (l : List Feature) (best : Feature) (bestD : ℚ),
      env.distM h (featCoord best) = bestD →
      env.distM h (featCoord (pickLoop env h best bestD l).1) = (pickLoop env h best bestD l).2 := by
  intro l
  induction l with
  | nil =>
      intro best bestD hbd
      simpa [pickLoop] using hbd
  | cons f rest ih =>
      intro best bestD hbd
      simp only [pickLoop]
      by_cases hc : env.distM h (featCoord f) < bestD
      · rw [if_pos hc]
        exact ih f _ rfl
      · rw [if_neg hc]
        exact ih best bestD hbd

theorem pickLoop_fst_mem (env : Env) (h : Coord) :
    ∀ (l : List Feature) (best : Feature) (bestD : ℚ),
      (pickLoop env h best bestD l).1 = best ∨ (pickLoop env h best bestD l).1 ∈ l := by
  intro l
  induction l with
  | nil =>
      intro best bestD
      left
      rfl
  | cons f rest ih =>
      intro best bestD
      simp only [pickLoop]
      by_cases hc : env.distM h (featCoord f) < bestD
      · rw [if_pos hc]
        rcases ih f (env.distM h (featCoord f)) with h1 | h1
        · right
          rw [h1]
          exact List.mem_cons_self _ _
        · right
          exact List.mem_cons_of_mem _ h1
      · rw [if_neg hc]
        rcases ih best bestD with h1 | h1
        · left
          exact h1
        · right
          exact List.mem_cons_of_mem _ h1

theorem pickLoop_min (env : Env) (h : Coord) :
    ∀ (l : List Feature) (best : Feature) (bestD : ℚ),
      (pickLoop env h best bestD l).2 ≤ bestD ∧
      ∀ f ∈ l, (pickLoop env h best bestD l).2 ≤ env.distM h (featCoord f) := by
  intro l
  induction l with
  | nil =>
      intro best bestD
      exact ⟨le_refl _, by simp⟩
  | cons f rest ih =>
      intro best bestD
      simp only [pickLoop]
      by_cases hc : env.distM h (featCoord f) < bestD
      · rw [if_pos hc]
        obtain ⟨ha, hb⟩ := ih f (env.distM h (featCoord f))
        refine ⟨le_trans ha (le_of_lt hc), ?_⟩
        intro f2 hf2
        rcases List.mem_cons.mp hf2 with he | he
        · subst he
          exact ha
        · exact hb f2 he
      · rw [if_neg hc]
        obtain ⟨ha, hb⟩ := ih best bestD
        refine ⟨ha, ?_⟩
        intro f2 hf2
        rcases List.mem_cons.mp hf2 with he | he
        · subst he
          exact le_trans ha (not_lt.mp hc)
        · exact hb f2 he

theorem survivors_eq (env : Env) (q : String) {feats : List Feature}
    (hq : env.geoFetch (normalizeQ q) = some feats) :
    survivors env q = feats.filter (fun f => inUkBoundsOpt f.lat f.lng) := by
  unfold survivors
  rw [hq]

theorem mem_survivors_bounds {env : Env} {q : String} {f : Feature}
    (hf : f ∈ survivors env q) : inUkBoundsOpt f.lat f.lng = true := by
  unfold survivors at hf
  cases hq : env.geoFetch (normalizeQ q) with
  | none =>
      rw [hq] at hf
      cases hf
  | some feats =>
      rw [hq] at hf
      exact (List.mem_filter.mp hf).2

theorem tryFetch_far (env : Env) (q : String) (h : Coord)
    (hfar : ∀ f ∈ survivors env q, maxHintDistanceM < env.distM h (featCoord f)) :
    tryFetch env q (some h) = none := by
  unfold tryFetch
  cases hq : env.geoFetch (normalizeQ q) with
  | none => rfl
  | some feats =>
      by_cases hemp : feats.isEmpty = true
      · simp [hemp]
      · simp only [hemp, Bool.false_eq_true, if_false]
        cases hfil : feats.filter (fun f => inUkBoundsOpt f.lat f.lng) with
        | nil => rfl
        | cons c0 rest =>
            have hmem := pickLoop_fst_mem env h (c0 :: rest) c0 (env.distM h (featCoord c0))
            have hdist := pickLoop_snd_dist env h (c0 :: rest) c0
              (env.distM h (featCoord c0)) rfl
            have hfmem :
                (pickLoop env h c0 (env.distM h (featCoord c0)) (c0 :: rest)).1
                  ∈ survivors env q := by
              rw [survivors_eq env q hq, hfil]
              rcases hmem with h1 | h1
              · rw [h1]
                exact List.mem_cons_self _ _
              · exact h1
            have hgt := hfar _ hfmem
            rw [hdist] at hgt
            simp [hgt]

theorem tryFetch_near (env : Env) (q : String) (h : Coord)
    (hnear : ∃ f ∈ survivors env q, env.distM h (featCoord f) ≤ maxHintDistanceM) :
    ∃ fb ∈ survivors env q, tryFetch env q (some h) = some fb ∧
      ∀ f ∈ survivors env q, env.distM h (featCoord fb) ≤ env.distM h (featCoord f) := by
  obtain ⟨f0, hf0mem, hf0d⟩ := hnear
  cases hq : env.geoFetch (normalizeQ q) with
  | none =>
      unfold survivors at hf0mem
      rw [hq] at hf0mem
      cases hf0mem
  | some feats =>
      have hsv : survivors env q = feats.filter (fun f => inUkBoundsOpt f.lat f.lng) :=
        survivors_eq env q hq
      cases hfil : feats.filter (fun f => inUkBoundsOpt f.lat f.lng) with
      | nil =>
          rw [hsv, hfil] at hf0mem
          cases hf0mem
      | cons c0 rest =>
          have hemp : feats.isEmpty = false := by
            cases feats with
            | nil => simp at hfil
            | cons a l2 => rfl
          have hmem := pickLoop_fst_mem env h (c0 :: rest) c0 (env.distM h (featCoord c0))
          have hdist := pickLoop_snd_dist env h (c0 :: rest) c0
            (env.distM h (featCoord c0)) rfl
          have hminAll := (pickLoop_min env h (c0 :: rest) c0 (env.distM h (featCoord c0))).2
          have hf0mem2 : f0 ∈ c0 :: rest := by
            rw [hsv, hfil] at hf0mem
            exact hf0mem
          have hple := le_trans (hminAll f0 hf0mem2) hf0d
          have hcond : ¬ (maxHintDistanceM
              < (pickLoop env h c0 (env.distM h (featCoord c0)) (c0 :: rest)).2) :=
            not_lt.mpr hple
          refine ⟨(pickLoop env h c0 (env.distM h (featCoord c0)) (c0 :: rest)).1, ?_, ?_, ?_⟩
          · rw [hsv, hfil]
            rcases hmem with h1 | h1
            · rw [h1]
              exact List.mem_cons_self _ _
            · exact h1
          · unfold tryFetch
            rw [hq]
            simp only [hemp, Bool.false_eq_true, if_false, hfil]
            simp [hcond]
          · intro f hf
            rw [hdist]
            rw [hsv, hfil] at hf
            exact hminAll f hf

/-- First component of `geoNet` (it does not depend on the caches). -/
def geoNetFst (env : Env) (label : String) (hint : Option Coord) : Except String GeoHit :=
  match (match tryFetch env (label ++ (", UK")) hint with
         | some f => some f
         | none => tryFetch env label hint) with
  | none => Except.error (("No match for: ") ++ label)
  | some f =>
      if inUkBoundsOpt f.lat f.lng then
        Except.ok ⟨f.lat.getD 0, f.lng.getD 0, displayNameOf f label⟩
      else Except.error (("Geocode out of UK bounds for: ") ++ label)

theorem geoNet_fst (env : Env) (fresh stored : GeoCache) (label k : String)
    (hint : Option Coord) :
    (geoNet env fresh stored label k hint).1 = geoNetFst env label hint := by
  unfold geoNet geoNetFst
  cases h1 : tryFetch env (label ++ (", UK")) hint with
  | some f =>
      by_cases hb : inUkBoundsOpt f.lat f.lng = true
      · simp [h1, hb]
      · simp [h1, hb]
  | none =>
      cases h2 : tryFetch env label hint with
      | some f =>
          by_cases hb : inUkBoundsOpt f.lat f.lng = true
          · simp [h1, h2, hb]
          · simp [h1, h2, hb]
      | none => simp [h1, h2]

theorem geocodePlace_fst_net (env : Env) (g : GeoCache) (label : String)
    (hint : Option Coord) (hk : normKey label ≠ "")
    (hmiss : ∀ c, geoLookup (freshOf g) (normKey label) = some c →
      inUkBoundsOpt c.lat c.lng = false) :
    (geocodePlace env g label hint).1 = geoNetFst env label hint := by
  cases hl : geoLookup (freshOf g) (normKey label) with
  | some c =>
      rw [geocodePlace_eq_purge env hint hk hl (hmiss c hl)]
      exact geoNet_fst env _ _ label _ hint
  | none =>
      rw [geocodePlace_eq_miss env hint hk hl]
      exact geoNet_fst env _ _ label _ hint

/-- C3: with a hint and no usable cached entry, (a) when every
envelope-surviving candidate of both query attempts lies farther than
120 km from the hint the lookup fails with the `No match` error; (b) when
the UK-biased query's survivors contain a candidate within 120 km,
`geocodePlace` returns the survivor nearest to the hint; (c) the same holds
for the raw-label query's survivors when the UK-biased attempt yields
nothing. -/
theorem claim_C3 (env : Env) (g : GeoCache) (label : String) (h : Coord)
    (hk : normKey label ≠ "")
    (hmiss : ∀ c, geoLookup (freshOf g) (normKey label) = some c →
      inUkBoundsOpt c.lat c.lng = false) :
    ((∀ f ∈ survivors env (label ++ (", UK")), maxHintDistanceM < env.distM h (featCoord f)) →
     (∀ f ∈ survivors env label, maxHintDistanceM < env.distM h (featCoord f)) →
     (geocodePlace env g label (some h)).1 = Except.error (("No match for: ") ++ label)) ∧
    ((∃ f ∈ survivors env (label ++ (", UK")), env.distM h (featCoord f) ≤ maxHintDistanceM) →
     ∃ fb ∈ survivors env (label ++ (", UK")),
       (geocodePlace env g label (some h)).1
         = Except.ok ⟨(featCoord fb).lat, (featCoord fb).lng, displayNameOf fb label⟩ ∧
       ∀ f ∈ survivors env (label ++ (", UK")),
         env.distM h (featCoord fb) ≤ env.distM h (featCoord f)) ∧
    (tryFetch env (label ++ (", UK")) (some h) = none →
     (∃ f ∈ survivors env label, env.distM h (featCoord f) ≤ maxHintDistanceM) →
     ∃ fb ∈ survivors env label,
       (geocodePlace env g label (some h)).1
         = Except.ok ⟨(featCoord fb).lat, (featCoord fb).lng, displayNameOf fb label⟩ ∧
       ∀ f ∈ survivors env label, env.distM h (featCoord fb) ≤ env.distM h (featCoord f)) := by
  have hfst := geocodePlace_fst_net env g label (some h) hk hmiss
  refine ⟨fun hfar1 hfar2 => ?_, fun hnear1 => ?_, fun hnone hnear2 => ?_⟩
  · rw [hfst]
    unfold geoNetFst
    rw [tryFetch_far env (label ++ (", UK")) h hfar1, tryFetch_far env label h hfar2]
  · obtain ⟨fb, hbmem, hbeq, hbmin⟩ := tryFetch_near env (label ++ (", UK")) h hnear1
    refine ⟨fb, hbmem, ?_, hbmin⟩
    rw [hfst]
    unfold geoNetFst
    rw [hbeq]
    dsimp only
    rw [if_pos (mem_survivors_bounds hbmem)]
    rfl
  · obtain ⟨fb, hbmem, hbeq, hbmin⟩ := tryFetch_near env label h hnear2
    refine ⟨fb, hbmem, ?_, hbmin⟩
    rw [hfst]
    unfold geoNetFst
    rw [hnone]
    dsimp only
    rw [hbeq]
    dsimp only
    rw [if_pos (mem_survivors_bounds hbmem)]
    rfl

/-- A near candidate for the C3 witness (close to the hint). -/
def featNear : Feature := ⟨some 0.3, some 52.3, "Ely", ""⟩

/-- A far candidate for the C3 witness (same name, other region). -/
def featFarAway : Feature := ⟨some (-4), some 57.5, "Ely North", ""⟩

/-- Environment whose place search returns the far candidate first and the
near candidate second. -/
def envC3 : Env :=
  ⟨taxiM, taxiKm, fun q => if q = "Ely, UK" then some [featFarAway, featNear] else none,
   fun _ _ => none⟩

/-- C3 witness: with the hint at (52.3, 0.3), the resolver picks the
nearest surviving candidate. -/
theorem claim_C3_witness :
    ∃ fb ∈ survivors envC3 (("Ely") ++ (", UK")),
      (geocodePlace envC3 emptyGeoCache ("Ely") (some ⟨52.3, 0.3⟩)).1
        = Except.ok ⟨(featCoord fb).lat, (featCoord fb).lng, displayNameOf fb ("Ely")⟩ ∧
      ∀ f ∈ survivors envC3 (("Ely") ++ (", UK")),
        envC3.distM ⟨52.3, 0.3⟩ (featCoord fb) ≤ envC3.distM ⟨52.3, 0.3⟩ (featCoord f) :=
  (claim_C3 envC3 emptyGeoCache ("Ely") ⟨52.3, 0.3⟩ (by decide)
    (fun c hc => by
      rw [show geoLookup (freshOf emptyGeoCache) (normKey ("Ely")) = none from rfl] at hc
      cases hc)).2.1
    ⟨featNear, by decide, by decide⟩

/-! Claims C6 and C7. -/

/-- Check `Array.isArray(seg?.geometry) && seg.geometry.length >= 2`. -/
def hasGeom (seg : Segment) : Bool :=
  match seg.geometry with
  | some geomList => decide (2 ≤ geomList.length)
  | none => false

/-- C6: when a segment's endpoint resolution or distance guard fails (the
non-geometry branch), the iteration increments `failedSegments` by one and
leaves the chain anchor `prev` — as well as the emitted lines, the bounds
and the OSRM cache — unchanged (only the persisted geocode cache may have
advanced), and the loop continues with the next segment. -/
theorem claim_C6 (env : Env) (r : Route) (segs : List Segment) (i : ℕ) (seg : Segment)
    (st : BuildSt) (rest : List ℕ) (g2 : GeoCache)
    (hseg : segs[i]? = some seg)
    (hgeom : hasGeom seg = false)
    (hfail : segResolve env r segs i seg st = Except.error g2) :
    segStep env r segs i st = { st with failed := st.failed + 1, geo := g2 } ∧
    segLoop env r segs (i :: rest) st
      = segLoop env r segs rest ({ st with failed := st.failed + 1, geo := g2 }) := by
  have hstep2 : segStepResolve env r segs i seg st
      = { st with failed := st.failed + 1, geo := g2 } := by
    unfold segStepResolve
    rw [hfail]
  have hstep : segStep env r segs i st = segStepResolve env r segs i seg st := by
    cases hg : seg.geometry with
    | none => simp [segStep, hseg, hg]
    | some geomList =>
        have hlen : ¬ (2 ≤ geomList.length) := by
          unfold hasGeom at hgeom
          rw [hg] at hgeom
          simpa using hgeom
        simp [segStep, hseg, hg, hlen]
  refine ⟨hstep.trans hstep2, ?_⟩
  show segLoop env r segs rest (segStep env r segs i st) = _
  rw [hstep, hstep2]

/-- Route fixture for the C6 witness: a single unlabelled segment whose
resolution fails. -/
def rEmpty : Route := ⟨"r-c6", "", "", "", "", "", "", none, none, [segEmpty]⟩

/-- Initial build state for the C6 witness. -/
def stW : BuildSt := ⟨none, 0, [], [], emptyGeoCache, ⟨[]⟩⟩

/-- C6 witness: the failing unlabelled segment increments `failedSegments`
and leaves the state otherwise unchanged, and the loop proceeds. -/
theorem claim_C6_witness :
    segStep envTriv rEmpty [segEmpty] 0 stW
      = { stW with failed := stW.failed + 1, geo := emptyGeoCache } ∧
    segLoop envTriv rEmpty [segEmpty] (0 :: []) stW
      = segLoop envTriv rEmpty [segEmpty] []
          ({ stW with failed := stW.failed + 1, geo := emptyGeoCache }) :=
  claim_C6 envTriv rEmpty [segEmpty] 0 segEmpty stW [] emptyGeoCache rfl rfl rfl

/-- Number of whole-route fallback polylines in a list. -/
def fallbackCount (ls : List Polyline) : ℕ :=
  (ls.filter (fun l => decide (l.kind = PolyKind.fallbackLine))).length

theorem segStepResolve_lines (env : Env) (r : Route) (segs : List Segment) (i : ℕ)
    (seg : Segment) (st : BuildSt) :
    ∃ tail, (segStepResolve env r segs i seg st).lines = st.lines ++ tail ∧
      ∀ l ∈ tail, l.kind = PolyKind.segLine := by
  cases hres : segResolve env r segs i seg st with
  | error g =>
      refine ⟨[], ?_, by simp⟩
      simp [segStepResolve, hres]
  | ok t =>
      obtain ⟨a, b, g2⟩ := t
      simp only [segStepResolve, hres]
      refine ⟨_, rfl, ?_⟩
      intro l hl
      simp at hl
      subst hl
      rfl

theorem segStep_lines (env : Env) (r : Route) (segs : List Segment) (i : ℕ) (st : BuildSt) :
    ∃ tail, (segStep env r segs i st).lines = st.lines ++ tail ∧
      ∀ l ∈ tail, l.kind = PolyKind.segLine := by
  cases hseg : segs[i]? with
  | none =>
      refine ⟨[], ?_, by simp⟩
      simp [segStep, hseg]
  | some seg =>
      cases hg : seg.geometry with
      | none =>
          have heq : segStep env r segs i st = segStepResolve env r segs i seg st := by
            simp [segStep, hseg, hg]
          rw [heq]
          exact segStepResolve_lines env r segs i seg st
      | some geomList =>
          by_cases hlen : 2 ≤ geomList.length
          · simp only [segStep, hseg, hg, hlen, if_true]
            refine ⟨_, rfl, ?_⟩
            intro l hl
            simp at hl
            subst hl
            rfl
          · have heq : segStep env r segs i st = segStepResolve env r segs i seg st := by
              simp [segStep, hseg, hg, hlen]
            rw [heq]
            exact segStepResolve_lines env r segs i seg st

theorem segLoop_lines (env : Env) (r : Route) (segs : List Segment) :
    ∀ (idxs : List ℕ) (st : BuildSt),
      ∃ tail, (segLoop env r segs idxs st).lines = st.lines ++ tail ∧
        ∀ l ∈ tail, l.kind = PolyKind.segLine := by
  intro idxs
  induction idxs with
  | nil =>
      intro st
      exact ⟨[], by simp [segLoop], by simp⟩
  | cons i rest ih =>
      intro st
      obtain ⟨t1, h1, h1k⟩ := segStep_lines env r segs i st
      obtain ⟨t2, h2, h2k⟩ := ih (segStep env r segs i st)
      refine ⟨t1 ++ t2, ?_, ?_⟩
      · show (segLoop env r segs rest (segStep env r segs i st)).lines = _
        rw [h2, h1, List.append_assoc]
      · intro l hl
        rcases List.mem_append.mp hl with h | h
        · exact h1k l h
        · exact h2k l h

theorem fallbackCount_eq_zero {ls : List Polyline}
    (h : ∀ l ∈ ls, l.kind = PolyKind.segLine) : fallbackCount ls = 0 := by
  unfold fallbackCount
  have hfil : ls.filter (fun l => decide (l.kind = PolyKind.fallbackLine)) = [] := by
    rw [List.filter_eq_nil_iff]
    intro a ha
    simp [h a ha]
  rw [hfil]
  rfl

theorem fallbackCount_append_one {ls : List Polyline} {fl : Polyline}
    (h0 : fallbackCount ls = 0) (hfl : fl.kind = PolyKind.fallbackLine) :
    fallbackCount (ls ++ [fl]) = 1 := by
  unfold fallbackCount at h0 ⊢
  rw [List.filter_append, List.length_append, h0]
  simp [hfl]

theorem routeFallback_zero (env : Env) (r : Route) (st : BuildSt) (h : st.failed = 0) :
    routeFallback env r st = st := by
  unfold routeFallback
  rw [h]
  simp

theorem routeFallback_adds (env : Env) (r : Route) (st : BuildSt) (s e : Coord)
    (g1 : GeoCache) (hf : 0 < st.failed)
    (ha : fallbackAnchors env st.geo r = (some (s, e), g1))
    (hs : inUkBounds s.lat s.lng = true) (he : inUkBounds e.lat e.lng = true) :
    ∃ fl, fl.kind = PolyKind.fallbackLine ∧
      (routeFallback env r st).lines = st.lines ++ [fl] := by
  unfold routeFallback
  rw [if_pos hf, ha]
  simp only [hs, he, Bool.and_self, if_true]
  exact ⟨_, rfl, rfl⟩

/-- The state of the per-route build after the segment loop, before the
whole-route fallback block. -/
def segLoopSt (env : Env) (g : GeoCache) (oc : OsrmCache) (r : Route) : BuildSt :=
  segLoop env r r.segments (List.range r.segments.length)
    ⟨(initPrev env g r).1, 0, [], [], (initPrev env g r).2.1, oc⟩

theorem buildRoute_eq (env : Env) (g : GeoCache) (oc : OsrmCache) (r : Route) :
    buildRoute env g oc r = routeFallback env r (segLoopSt env g oc r) := rfl

/-- C7: when the segment loop ends with `failedSegments = 0` no fallback
polyline is produced; when it ends with `failedSegments > 0` and the route's
start and end anchors resolve inside the envelope, exactly one additional
whole-route fallback polyline is appended after — not instead of — the
per-segment polylines. -/
theorem claim_C7 (env : Env) (g : GeoCache) (oc : OsrmCache) (r : Route) :
    ((segLoopSt env g oc r).failed = 0 →
      buildRoute env g oc r = segLoopSt env g oc r ∧
      fallbackCount (buildRoute env g oc r).lines = 0) ∧
    (0 < (segLoopSt env g oc r).failed →
      ∀ s e g1, fallbackAnchors env (segLoopSt env g oc r).geo r = (some (s, e), g1) →
        inUkBounds s.lat s.lng = true → inUkBounds e.lat e.lng = true →
        ∃ fl, fl.kind = PolyKind.fallbackLine ∧
          (buildRoute env g oc r).lines = (segLoopSt env g oc r).lines ++ [fl] ∧
          fallbackCount (buildRoute env g oc r).lines = 1) := by
  have hall : ∀ l ∈ (segLoopSt env g oc r).lines, l.kind = PolyKind.segLine := by
    obtain ⟨tail, hT, hK⟩ := segLoop_lines env r r.segments
      (List.range r.segments.length)
      ⟨(initPrev env g r).1, 0, [], [], (initPrev env g r).2.1, oc⟩
    intro l hl
    unfold segLoopSt at hl
    rw [hT] at hl
    simp only [List.nil_append] at hl
    exact hK l hl
  have hcount0 : fallbackCount (segLoopSt env g oc r).lines = 0 := fallbackCount_eq_zero hall
  constructor
  · intro h0
    have hrf : buildRoute env g oc r = segLoopSt env g oc r := by
      rw [buildRoute_eq]
      exact routeFallback_zero env r _ h0
    exact ⟨hrf, by rw [hrf]; exact hcount0⟩
  · intro hf s e g1 ha hs he
    obtain ⟨fl, hflk, hfll⟩ := routeFallback_adds env r (segLoopSt env g oc r) s e g1 hf ha hs he
    refine ⟨fl, hflk, ?_, ?_⟩
    · rw [buildRoute_eq]
      exact hfll
    · rw [buildRoute_eq, hfll]
      exact fallbackCount_append_one hcount0 hflk

/-- Environment for the C7 witness (all network calls fail; distances via
the taxicab stand-ins). -/
def envW : Env := ⟨taxiM, taxiKm, fun _ => none, fun _ _ => none⟩

/-- Witness segment 1: operator-drawn geometry, used directly. -/
def s1W : Segment := ⟨"R1", "X", "Y", "L", "", none, none, some [(0.4, 52.2), (0.5, 52.3)]⟩

/-- Witness segment 2: road-only labels everywhere, so the `to` anchor
cannot be resolved and the segment fails. -/
def s2W : Segment := ⟨"A17", "A17", "M6", "L", "", none, none, none⟩

/-- Witness segment 3: a pinned, envelope-valid `toCoords`. -/
def s3W : Segment := ⟨"R3", "", "", "L", "", none, some ⟨some 52.4, some 0.6⟩, none⟩

/-- Witness route: S1 succeeds (geometry), S2 fails, S3 succeeds (override),
and both route anchors are pinned. -/
def rteW : Route :=
  ⟨"r-c7", "T", "", "", "CB8", "", "", some ⟨some 52.2, some 0.4⟩,
   some ⟨some 52.4, some 0.6⟩, [s1W, s2W, s3W]⟩

/-- C7 witness: on the `[S1 ok, S2 fails, S3 ok]` route the build yields the
per-segment polylines plus exactly one additional fallback polyline. -/
theorem claim_C7_witness :
    ∃ fl, fl.kind = PolyKind.fallbackLine ∧
      (buildRoute envW emptyGeoCache ⟨[]⟩ rteW).lines
        = (segLoopSt envW emptyGeoCache ⟨[]⟩ rteW).lines ++ [fl] ∧
      fallbackCount (buildRoute envW emptyGeoCache ⟨[]⟩ rteW).lines = 1 :=
  (claim_C7 envW emptyGeoCache ⟨[]⟩ rteW).2 (by decide) ⟨52.2, 0.4⟩ ⟨52.4, 0.6⟩
    emptyGeoCache rfl (by decide) (by decide)

/-! Claim C10. -/

theorem isAMCh_cases {c : Char} (h : isAMCh c = true) :
    c = 'A' ∨ c = 'a' ∨ c = 'M' ∨ c = 'm' := by
  unfold isAMCh at h
  simp only [Bool.or_eq_true, decide_eq_true_eq] at h
  rcases h with ((h1 | h1) | h1) | h1
  · exact Or.inl h1
  · exact Or.inr (Or.inl h1)
  · exact Or.inr (Or.inr (Or.inl h1))
  · exact Or.inr (Or.inr (Or.inr h1))

theorem toUpper_AM {c : Char} (h : isAMCh c = true) :
    Char.toUpper c = 'A' ∨ Char.toUpper c = 'M' := by
  rcases isAMCh_cases h with h1 | h1 | h1 | h1 <;> subst h1
  · left
    decide
  · left
    decide
  · right
    decide
  · right
    decide

theorem digit_toNat {d : Char} (h : isDigitCh d = true) :
    48 ≤ d.toNat ∧ d.toNat ≤ 57 := by
  unfold isDigitCh at h
  simp only [Bool.and_eq_true, decide_eq_true_eq] at h
  obtain ⟨h1, h2⟩ := h
  rw [Char.le_def] at h1 h2
  exact ⟨h1, h2⟩

theorem toUpper_digit {d : Char} (h : isDigitCh d = true) : Char.toUpper d = d := by
  obtain ⟨h1, h2⟩ := digit_toNat h
  unfold Char.toUpper
  rw [if_neg]
  intro hc
  omega

theorem digit_not_ws {d : Char} (h : isDigitCh d = true) : isWsCh d = false := by
  obtain ⟨h1, h2⟩ := digit_toNat h
  have n1 : d ≠ ' ' := by intro he; subst he; exact absurd h1 (by decide)
  have n2 : d ≠ '\t' := by intro he; subst he; exact absurd h1 (by decide)
  have n3 : d ≠ '\n' := by intro he; subst he; exact absurd h1 (by decide)
  have n4 : d ≠ '\r' := by intro he; subst he; exact absurd h1 (by decide)
  simp [isWsCh, n1, n2, n3, n4]

theorem digit_not_AM {d : Char} (h : isDigitCh d = true) : isAMCh d = false := by
  obtain ⟨h1, h2⟩ := digit_toNat h
  have n1 : d ≠ 'A' := by intro he; subst he; exact absurd h2 (by decide)
  have n2 : d ≠ 'a' := by intro he; subst he; exact absurd h2 (by decide)
  have n3 : d ≠ 'M' := by intro he; subst he; exact absurd h2 (by decide)
  have n4 : d ≠ 'm' := by intro he; subst he; exact absurd h2 (by decide)
  simp [isAMCh, n1, n2, n3, n4]

theorem upperAM_not_ws {c : Char} (h : isAMCh c = true) :
    isWsCh (Char.toUpper c) = false := by
  rcases toUpper_AM h with h1 | h1 <;> rw [h1] <;> decide

theorem upperAM_isAM {c : Char} (h : isAMCh c = true) :
    isAMCh (Char.toUpper c) = true := by
  rcases toUpper_AM h with h1 | h1 <;> rw [h1] <;> decide

theorem map_toUpper_digits {ds : List Char} (h : ∀ d ∈ ds, isDigitCh d = true) :
    ds.map Char.toUpper = ds := by
  induction ds with
  | nil => rfl
  | cons d rest ih =>
      simp only [List.map_cons]
      rw [toUpper_digit (h d (List.mem_cons_self _ _)),
        ih (fun c hc => h c (List.mem_cons_of_mem _ hc))]

theorem dropWhile_all_false (p : Char → Bool) {l : List Char}
    (h : ∀ c ∈ l, p c = false) : l.dropWhile p = l := by
  cases l with
  | nil => rfl
  | cons c rest => simp [List.dropWhile_cons, h c (List.mem_cons_self _ _)]

theorem trimCh_eq_self {l : List Char} (h : ∀ c ∈ l, isWsCh c = false) : trimCh l = l := by
  unfold trimCh
  rw [dropWhile_all_false isWsCh h,
    dropWhile_all_false isWsCh (fun c hc => h c (List.mem_reverse.mp hc)),
    List.reverse_reverse]

theorem mem_takeWhile_pred (p : Char → Bool) :
    ∀ (l : List Char) (c : Char), c ∈ l.takeWhile p → p c = true := by
  intro l
  induction l with
  | nil =>
      intro c h
      cases h
  | cons a rest ih =>
      intro c h
      by_cases hp : p a = true
      · rw [List.takeWhile_cons, if_pos hp] at h
        rcases List.mem_cons.mp h with he | he
        · subst he
          exact hp
        · exact ih c he
      · rw [List.takeWhile_cons, if_neg hp] at h
        cases h

theorem takeWhile_append_of (p : Char → Bool) :
    ∀ (ds t : List Char), (∀ c ∈ ds, p c = true) →
      (match t with | [] => True | c :: _ => p c = false) →
      (ds ++ t).takeWhile p = ds ∧ (ds ++ t).dropWhile p = t := by
  intro ds
  induction ds with
  | nil =>
      intro t _ ht
      cases t with
      | nil => exact ⟨rfl, rfl⟩
      | cons c r =>
          have hc : p c = false := ht
          constructor
          · simp [List.takeWhile_cons, hc]
          · simp [List.dropWhile_cons, hc]
  | cons d rest ih =>
      intro t hds ht
      have hd : p d = true := hds d (List.mem_cons_self _ _)
      obtain ⟨h1, h2⟩ := ih t (fun c hc => hds c (List.mem_cons_of_mem _ hc)) ht
      constructor
      · simp only [List.cons_append, List.takeWhile_cons, hd, if_true, h1]
      · simp only [List.cons_append, List.dropWhile_cons, hd, if_true, h2]

theorem span_all (p : Char → Bool) {ds : List Char} (h : ∀ c ∈ ds, p c = true) :
    ds.takeWhile p = ds ∧ ds.dropWhile p = [] := by
  obtain ⟨h1, h2⟩ := takeWhile_append_of p ds [] h trivial
  rw [List.append_nil] at h1 h2
  exact ⟨h1, h2⟩

/-- Shape of the characters captured by the second group `[AM]?\d{1,3}`. -/
def slashShape (g2 : List Char) : Prop :=
  ∃ ds, (∀ d ∈ ds, isDigitCh d = true) ∧ 1 ≤ ds.length ∧ ds.length ≤ 3 ∧
    (g2 = ds ∨ ∃ c, isAMCh c = true ∧ g2 = c :: ds)

theorem roadSlashGroup_shape {l : List Char} {g2 : List Char}
    (h : roadSlashGroup l = some g2) : slashShape g2 := by
  unfold roadSlashGroup at h
  cases hsw : skipWs l with
  | nil =>
      rw [hsw] at h
      cases h
  | cons c0 l2 =>
      rw [hsw] at h
      dsimp only at h
      by_cases hc0 : c0 = '/'
      · rw [if_pos hc0] at h
        cases hsw2 : skipWs l2 with
        | nil =>
            rw [hsw2] at h
            cases h
        | cons c l4 =>
            rw [hsw2] at h
            dsimp only at h
            by_cases hAM : isAMCh c = true
            · rw [if_pos hAM] at h
              split at h
              · injection h with h2
                subst h2
                rename_i hcond
                simp only [Bool.and_eq_true, decide_eq_true_eq] at hcond
                exact ⟨List.takeWhile isDigitCh l4,
                  fun d hd => mem_takeWhile_pred isDigitCh l4 d hd,
                  hcond.1.1, hcond.1.2, Or.inr ⟨c, hAM, rfl⟩⟩
              · cases h
            · rw [if_neg hAM] at h
              split at h
              · injection h with h2
                subst h2
                rename_i hcond
                simp only [Bool.and_eq_true, decide_eq_true_eq] at hcond
                exact ⟨List.takeWhile isDigitCh (c :: l4),
                  fun d hd => mem_takeWhile_pred isDigitCh (c :: l4) d hd,
                  hcond.1.1, hcond.1.2, Or.inl rfl⟩
              · cases h
      · rw [if_neg hc0] at h
        cases h

theorem roadMatchAt_shape {l : List Char} {g1 : List Char} {g2o : Option (List Char)}
    (h : roadMatchAt l = some (g1, g2o)) :
    (∃ c ds, g1 = c :: ds ∧ isAMCh c = true ∧ (∀ d ∈ ds, isDigitCh d = true) ∧
      1 ≤ ds.length ∧ ds.length ≤ 3) ∧
    (∀ g2, g2o = some g2 → slashShape g2) := by
  unfold roadMatchAt at h
  cases l with
  | nil => cases h
  | cons c l1 =>
      dsimp only at h
      by_cases hAM : isAMCh c = true
      · rw [if_pos hAM] at h
        split at h
        · rename_i hcond
          simp only [Bool.and_eq_true, decide_eq_true_eq] at hcond
          split at h
          · rename_i g2 hsg
            injection h with h2
            injection h2 with he1 he2
            subst he1
            subst he2
            refine ⟨⟨c, List.takeWhile isDigitCh l1, rfl, hAM,
              fun d hd => mem_takeWhile_pred isDigitCh l1 d hd, hcond.1, hcond.2⟩, ?_⟩
            intro g2x hg2x
            injection hg2x with hg2x
            subst hg2x
            exact roadSlashGroup_shape hsg
          · split at h
            · injection h with h2
              injection h2 with he1 he2
              subst he1
              subst he2
              refine ⟨⟨c, List.takeWhile isDigitCh l1, rfl, hAM,
                fun d hd => mem_takeWhile_pred isDigitCh l1 d hd, hcond.1, hcond.2⟩, ?_⟩
              intro g2x hg2x
              cases hg2x
            · cases h
        · cases h
      · rw [if_neg hAM] at h
        cases h

theorem roadScan_shape :
    ∀ (prev : Option Char) (l : List Char) (r : List Char × Option (List Char)),
      roadScan prev l = some r → ∃ l2, roadMatchAt l2 = some r := by
  intro prev l
  induction l generalizing prev with
  | nil =>
      intro r h
      cases h
  | cons c rest ih =>
      intro r h
      unfold roadScan at h
      by_cases hb : boundaryBeforeOk prev = true
      · rw [if_pos hb] at h
        cases hm : roadMatchAt (c :: rest) with
        | some r2 =>
            rw [hm] at h
            dsimp only at h
            injection h with h2
            subst h2
            exact ⟨c :: rest, hm⟩
        | none =>
            rw [hm] at h
            dsimp only at h
            exact ih (some c) r h
      · rw [if_neg hb] at h
        dsimp only at h
        exact ih (some c) r h

theorem roadOnlyCore_render_noslash {c : Char} {ds : List Char}
    (hAM : isAMCh c = true) (hds : ∀ d ∈ ds, isDigitCh d = true)
    (h1 : 1 ≤ ds.length) (h3 : ds.length ≤ 3) :
    roadOnlyCore (Char.toUpper c :: ds) = true := by
  obtain ⟨ht, hd⟩ := span_all isDigitCh hds
  simp only [roadOnlyCore, ht, hd]
  simp [upperAM_isAM hAM, h1, h3]

theorem roadOnlyTail_render {g2 : List Char} (hs : slashShape g2) :
    roadOnlyTail ('/' :: g2.map Char.toUpper) = true := by
  obtain ⟨ds, hds, h1, h3, hshape⟩ := hs
  have hws : isWsCh '/' = false := by decide
  unfold roadOnlyTail
  have hsw : skipWs ('/' :: g2.map Char.toUpper) = '/' :: g2.map Char.toUpper := by
    simp [skipWs, List.dropWhile_cons, hws]
  rw [hsw]
  dsimp only
  rw [if_pos rfl]
  rcases hshape with hg | ⟨c, hAMc, hg⟩
  · subst hg
    rw [map_toUpper_digits hds]
    obtain ⟨d, dtl, rfl⟩ : ∃ d dtl, g2 = d :: dtl := by
      cases g2 with
      | nil => simp at h1
      | cons d dtl => exact ⟨d, dtl, rfl⟩
    have hdd : isDigitCh d = true := hds d (List.mem_cons_self _ _)
    have hsw2 : skipWs (d :: dtl) = d :: dtl := by
      simp [skipWs, List.dropWhile_cons, digit_not_ws hdd]
    rw [hsw2]
    simp only [digit_not_AM hdd, Bool.false_eq_true, if_false]
    obtain ⟨ht2, hd2⟩ := span_all isDigitCh hds
    simp [ht2, hd2, h1]
    have h3b : dtl.length + 1 ≤ 3 := by simpa using h3
    omega
  · subst hg
    simp only [List.map_cons, map_toUpper_digits hds]
    have hsw2 : skipWs (Char.toUpper c :: ds) = Char.toUpper c :: ds := by
      simp [skipWs, List.dropWhile_cons, upperAM_not_ws hAMc]
    rw [hsw2]
    simp only [upperAM_isAM hAMc, if_true]
    obtain ⟨ht2, hd2⟩ := span_all isDigitCh hds
    simp [ht2, hd2, h1, h3]

theorem roadOnlyCore_render_slash {c : Char} {ds : List Char} {g2 : List Char}
    (hAM : isAMCh c = true) (hds : ∀ d ∈ ds, isDigitCh d = true)
    (h1 : 1 ≤ ds.length) (h3 : ds.length ≤ 3) (hs : slashShape g2) :
    roadOnlyCore (Char.toUpper c :: (ds ++ '/' :: g2.map Char.toUpper)) = true := by
  have hsep : (match ('/' :: g2.map Char.toUpper : List Char) with
      | [] => True
      | c2 :: _ => isDigitCh c2 = false) := by
    show isDigitCh '/' = false
    decide
  obtain ⟨ht, hd⟩ := takeWhile_append_of isDigitCh ds ('/' :: g2.map Char.toUpper) hds hsep
  simp only [roadOnlyCore, ht, hd]
  have htail := roadOnlyTail_render hs
  simp [upperAM_isAM hAM, h1, h3, htail]

theorem slashShape_not_ws {g2 : List Char} (hs : slashShape g2) :
    ∀ x ∈ g2.map Char.toUpper, isWsCh x = false := by
  obtain ⟨ds, hds, h1, h3, hshape⟩ := hs
  rcases hshape with hg | ⟨c, hAMc, hg⟩
  · subst hg
    rw [map_toUpper_digits hds]
    intro x hx
    exact digit_not_ws (hds x hx)
  · subst hg
    simp only [List.map_cons, map_toUpper_digits hds]
    intro x hx
    rcases List.mem_cons.mp hx with he | he
    · subst he
      exact upperAM_not_ws hAMc
    · exact digit_not_ws (hds x he)

/-- C10: whenever `extractRoadToken` returns a nonempty token, that token is
itself accepted by `isRoadOnlyLabel` — so `effectiveLabelForEndpoint`'s
substitution of an extracted road token always yields a road-only label. -/
theorem claim_C10 (v : String) (h : extractRoadToken v ≠ "") :
    isRoadOnlyLabel (extractRoadToken v) = true := by
  unfold extractRoadToken at h ⊢
  cases hscan : roadScan none v.data with
  | none =>
      rw [hscan] at h
      exact absurd rfl h
  | some r =>
      obtain ⟨g1, g2o⟩ := r
      obtain ⟨l2, hmatch⟩ := roadScan_shape none v.data (g1, g2o) hscan
      obtain ⟨⟨c, ds, hg1, hAM, hds, h1, h3⟩, hsl⟩ := roadMatchAt_shape hmatch
      subst hg1
      cases g2o with
      | none =>
          show isRoadOnlyLabel (String.mk ((c :: ds).map Char.toUpper)) = true
          unfold isRoadOnlyLabel
          have hdata : (String.mk ((c :: ds).map Char.toUpper)).data
              = Char.toUpper c :: ds := by
            simp [map_toUpper_digits hds]
          rw [hdata]
          have hws : ∀ x ∈ (Char.toUpper c :: ds), isWsCh x = false := by
            intro x hx
            rcases List.mem_cons.mp hx with he | he
            · subst he
              exact upperAM_not_ws hAM
            · exact digit_not_ws (hds x he)
          rw [trimCh_eq_self hws]
          exact roadOnlyCore_render_noslash hAM hds h1 h3
      | some g2 =>
          have hshape2 : slashShape g2 := hsl g2 rfl
          show isRoadOnlyLabel
            (String.mk ((c :: ds).map Char.toUpper ++ '/' :: g2.map Char.toUpper)) = true
          unfold isRoadOnlyLabel
          have hdata : (String.mk ((c :: ds).map Char.toUpper ++ '/' :: g2.map Char.toUpper)).data
              = Char.toUpper c :: (ds ++ '/' :: g2.map Char.toUpper) := by
            simp [map_toUpper_digits hds]
          rw [hdata]
          have hws : ∀ x ∈ (Char.toUpper c :: (ds ++ '/' :: g2.map Char.toUpper)),
              isWsCh x = false := by
            intro x hx
            rcases List.mem_cons.mp hx with he | he
            · subst he
              exact upperAM_not_ws hAM
            · rcases List.mem_append.mp he with he2 | he2
              · exact digit_not_ws (hds x he2)
              · rcases List.mem_cons.mp he2 with he3 | he3
                · subst he3
                  decide
                · exact slashShape_not_ws hshape2 x he3
          rw [trimCh_eq_self hws]
          exact roadOnlyCore_render_slash hAM hds h1 h3 hshape2

/-- C10 witness: the spec's instruction-noise example yields the token
`A17`, which is road-only. -/
theorem claim_C10_witness :
    extractRoadToken ("At roundabout take 3rd exit onto A17") ≠ "" ∧
    isRoadOnlyLabel (extractRoadToken ("At roundabout take 3rd exit onto A17")) = true :=
  ⟨by decide, claim_C10 ("At roundabout take 3rd exit onto A17") (by decide)⟩

end HGV
